import Mathlib

/-!
# kubejax: production classifier, search, config mutation

A shallow embedding of the decision logic of `kubejax.go` and the verification
of its specification.

Conventions of the embedding

* A Go `string` is its sequence of bytes, `GoString := List Nat` (every element
  a byte value).  Indexing `s[i]`, `len(s)` and slicing `s[i:]` are the list
  operations on that sequence.
* Go's `-1` "not found" result of `strings.Index` is `none`.
* A `for` loop whose termination is not structural carries an explicit count of
  loop-body executions (fuel); `none` is "the loop did not finish".
* Standard-library functions whose behaviour is outside the repository
  (`strings.ToLower`, `filepath.Join`, the YAML codec) are parameters of the
  definitions that call them, so that every theorem holds for the real
  implementations as well as for the small concrete ones used in examples.
-/

namespace Kubejax

/-! ## Strings -/

/-- A Go string, as the list of its bytes. -/
abbrev GoString := List Nat

/-- UTF-8 encoding of one code point (Go's conversion `string(r)` for a valid rune). -/
def utf8EncodeRune (r : Nat) : GoString :=
  if r < 0x80 then [r]
  else if r < 0x800 then [0xC0 + r / 64, 0x80 + r % 64]
  else if r < 0x10000 then [0xE0 + r / 4096, 0x80 + (r / 64) % 64, 0x80 + r % 64]
  else [0xF0 + r / 262144, 0x80 + (r / 4096) % 64, 0x80 + (r / 64) % 64, 0x80 + r % 64]

/-- The bytes of a string literal of the source (its UTF-8 encoding). -/
def lit (s : String) : GoString :=
  s.toList.flatMap (fun ch => utf8EncodeRune ch.toNat)

namespace strings

/-- Go's `strings.Index(s, substr)`: the index of the first occurrence of `substr`
in `s`, `none` (Go: `-1`) when there is none. -/
def Index : GoString → GoString → Option Nat
  | [], substr => if substr.isPrefixOf [] then some 0 else none
  | c :: s, substr =>
    if substr.isPrefixOf (c :: s) then some 0 else (Index s substr).map (· + 1)

/-- Go's `strings.Contains(s, substr)`, which is `Index(s, substr) >= 0`. -/
def Contains (s substr : GoString) : Bool :=
  (Index s substr).isSome

/-- Go's `strings.HasPrefix`. -/
def HasPrefix (s pre : GoString) : Bool :=
  pre.isPrefixOf s

/-- Go's `strings.HasSuffix`. -/
def HasSuffix (s suf : GoString) : Bool :=
  suf.isSuffixOf s

/-- Lower-casing of the ASCII letters, byte by byte: what Go's `strings.ToLower`
computes on an ASCII string.  Used to instantiate the `ToLower` parameter in
concrete examples. -/
def ToLowerASCII (s : GoString) : GoString :=
  s.map (fun c => if 65 ≤ c ∧ c ≤ 90 then c + 32 else c)

end strings

/-! ## Production classifier (`kubejax.go` lines 83-84, 165-237) -/

/-- Source: `var productionKeywords = []string{"prd", "production"}`. -/
def productionKeywords : List GoString := [lit "prd", lit "production"]

/-- Source: `var productionExactKeywords = []string{"prod"}`. -/
def productionExactKeywords : List GoString := [lit "prod"]

/-- Source: `isWordSeparator(char byte, separators []string) bool`.
`charStr := string(char)` converts the byte value to the UTF-8 encoding of the
code point of that value; the loop returns true at the first separator equal to it. -/
def isWordSeparator (char : Nat) : List GoString → Bool
  | [] => false
  | sep :: separators =>
    if utf8EncodeRune char = sep then true else isWordSeparator char separators

/-- Source: the local `separators := []string{"-", "_", ".", " "}` of `isExactWordMatch`. -/
def separators : List GoString := [lit "-", lit "_", lit ".", lit " "]

/-- The test `i == 0 || isWordSeparator(text[i-1], separators)` and its mirror image
share this shape: `isWordSeparator(text[j], separators)` for an index that the
short-circuit guard has made valid.  An out-of-range index (a Go panic) cannot
occur at either call; it is mapped to `false`. -/
def separatorAt (text : GoString) (j : Nat) : Bool :=
  match text.get? j with
  | some c => isWordSeparator c separators
  | none => false

/-- Source: the `for index != -1` loop of `isExactWordMatch` (lines 179-194).
`fuel` bounds the number of executions of the loop body; `index` is the loop
variable (`none` for `-1`). -/
def isExactWordMatchLoop (text keyword : GoString) : Nat → Option Nat → Option Bool
  | _, none => some false
  | 0, some _ => none
  | fuel + 1, some index =>
    let startIndex := index
    let endIndex := index + keyword.length
    let validStart := startIndex == 0 || separatorAt text (startIndex - 1)
    let validEnd := decide (endIndex ≥ text.length) || separatorAt text endIndex
    if validStart && validEnd then some true
    else
      isExactWordMatchLoop text keyword fuel
        ((strings.Index (text.drop endIndex) keyword).map (· + endIndex))

/-- Source: `isExactWordMatch(text, keyword string) bool`.  The loop is given
`len(text) + 1` body executions, which is more than it can use when the keyword
is non-empty; the result `none` stands for a loop that does not finish. -/
def isExactWordMatch (text keyword : GoString) : Option Bool :=
  isExactWordMatchLoop text keyword (text.length + 1) (strings.Index text keyword)

/-! ### Specification vocabulary for the classifier -/

/-- The keyword `K` occurs in `T` at position `i`. -/
def OccursAt (T K : GoString) (i : Nat) : Prop :=
  K <+: T.drop i

/-- The four separator bytes `-`, `_`, `.` and space. -/
def IsSeparatorByte (c : Nat) : Prop :=
  c = 45 ∨ c = 95 ∨ c = 46 ∨ c = 32

/-- An occurrence of `K` in `T` at `i` that is bounded on both sides by a separator
or a string edge. -/
def BoundedOccurrence (T K : GoString) (i : Nat) : Prop :=
  OccursAt T K i ∧
  (i = 0 ∨ ∃ c, T.get? (i - 1) = some c ∧ IsSeparatorByte c) ∧
  (i + K.length = T.length ∨ ∃ c, T.get? (i + K.length) = some c ∧ IsSeparatorByte c)

instance (T K : GoString) (i : Nat) : Decidable (OccursAt T K i) :=
  inferInstanceAs (Decidable (K <+: T.drop i))

instance (c : Nat) : Decidable (IsSeparatorByte c) :=
  inferInstanceAs (Decidable (c = 45 ∨ c = 95 ∨ c = 46 ∨ c = 32))

/-- The substring `K` occurs somewhere in `T` (at a position `i ≤ len(T)`). -/
def IsSubstring (K T : GoString) : Prop :=
  ∃ i, i ≤ T.length ∧ OccursAt T K i

instance (K T : GoString) : Decidable (IsSubstring K T) :=
  inferInstanceAs (Decidable (∃ i, i ≤ T.length ∧ OccursAt T K i))

/-- The loop variable after a failed occurrence: the next occurrence at or after `p`. -/
def nextIndex (T K : GoString) (p : Nat) : Option Nat :=
  (strings.Index (T.drop p) K).map (· + p)

/-- A keyword none of whose bytes is a separator. -/
def SeparatorFree (K : GoString) : Prop :=
  ∀ c, c ∈ K → ¬ IsSeparatorByte c

instance (K : GoString) : Decidable (SeparatorFree K) :=
  inferInstanceAs (Decidable (∀ c, c ∈ K → ¬ IsSeparatorByte c))

/-- Source: the first loop of `isProductionEnvironment` (lines 202-206):
return true at the first exact keyword that matches as a whole word. -/
def anyExactWordMatch (text : GoString) : List GoString → Option Bool
  | [] => some false
  | keyword :: rest =>
    match isExactWordMatch text keyword with
    | none => none
    | some true => some true
    | some false => anyExactWordMatch text rest

/-- Source: the second loop of `isProductionEnvironment` (lines 208-212):
return true at the first keyword contained in the text. -/
def anyContains (text : GoString) : List GoString → Bool
  | [] => false
  | keyword :: rest =>
    if strings.Contains text keyword then true else anyContains text rest

/-- Source: `isProductionEnvironment(contextName string) bool`.
`ToLower` is `strings.ToLower`. -/
def isProductionEnvironment (ToLower : GoString → GoString) (contextName : GoString) :
    Option Bool :=
  let lowerContext := ToLower contextName
  match anyExactWordMatch lowerContext productionExactKeywords with
  | none => none
  | some true => some true
  | some false => some (anyContains lowerContext productionKeywords)

/-! ## Search (`kubejax.go` lines 67-70, 239-267) -/

/-- Source: `type ConfigInfo struct { FilePath string; Contexts []string }`. -/
structure ConfigInfo where
  FilePath : GoString
  Contexts : List GoString
deriving DecidableEq, Repr

/-- Go's `a <= b` on strings: byte-wise lexicographic order, a proper prefix first. -/
def stringLE : GoString → GoString → Bool
  | [], _ => true
  | _ :: _, [] => false
  | a :: s, b :: t => decide (a < b) || (a == b && stringLE s t)

namespace sort

/-- Go's `sort.Strings`: the argument rearranged in increasing order.  The order
is total and antisymmetric on strings, so the result does not depend on the
sorting algorithm (`sortStrings_unique`); insertion sort computes it here. -/
def Strings (x : List GoString) : List GoString :=
  x.insertionSort (fun a b => stringLE a b = true)

end sort

/-- Source: the loop of `searchNamespaces` (lines 259-263), with `matched` the
slice built so far. -/
def collectMatches (ToLower : GoString → GoString) (searchLower : GoString) :
    List GoString → List GoString → List GoString
  | matched, [] => matched
  | matched, name :: rest =>
    if strings.Contains (ToLower name) searchLower then
      collectMatches ToLower searchLower (matched ++ [name]) rest
    else collectMatches ToLower searchLower matched rest

/-- Source: `searchNamespaces(namespaces []string, searchTerm string) []string`. -/
def searchNamespaces (ToLower : GoString → GoString) (namespaces : List GoString)
    (searchTerm : GoString) : List GoString :=
  let searchLower := ToLower searchTerm
  sort.Strings (collectMatches ToLower searchLower [] namespaces)

/-- Source: the outer loop of `searchContexts` (lines 243-249); the inner loop over
`configInfo.Contexts` is the loop of `searchNamespaces`. -/
def collectContextMatches (ToLower : GoString → GoString) (searchLower : GoString) :
    List GoString → List ConfigInfo → List GoString
  | matched, [] => matched
  | matched, configInfo :: rest =>
    collectContextMatches ToLower searchLower
      (collectMatches ToLower searchLower matched configInfo.Contexts) rest

/-- Source: `searchContexts(configInfos []ConfigInfo, searchTerm string) []string`. -/
def searchContexts (ToLower : GoString → GoString) (configInfos : List ConfigInfo)
    (searchTerm : GoString) : List GoString :=
  let searchLower := ToLower searchTerm
  sort.Strings (collectContextMatches ToLower searchLower [] configInfos)

/-! ## Untyped documents (`interface{}` values produced by `yaml.Unmarshal`) -/

/-- The scalar values `yaml.v2` produces when it decodes into `interface{}`.
They are the hashable values, hence the possible keys of a
`map[interface{}]interface{}`.  A `float64` is carried as its bit pattern. -/
inductive Scalar
  | null
  | bool (b : Bool)
  | int (i : Int)
  | float (bits : Nat)
  | str (s : GoString)
deriving DecidableEq, Repr

/-- An untyped document: a scalar, a `[]interface{}` or a
`map[interface{}]interface{}`.  A Go map is represented by its bindings; only
key lookup (`mapGet`) and key assignment (`mapSet`) are used on it, as in the
source. -/
inductive Value
  | scalar (s : Scalar)
  | seq (items : List Value)
  | map (entries : List (Scalar × Value))
deriving Repr

mutual
/-- Structural equality test on documents. -/
def Value.beq : Value → Value → Bool
  | .scalar a, .scalar b => a == b
  | .seq xs, .seq ys => Value.beqList xs ys
  | .map xs, .map ys => Value.beqEntries xs ys
  | _, _ => false
/-- Structural equality test on sequences of documents. -/
def Value.beqList : List Value → List Value → Bool
  | [], [] => true
  | x :: xs, y :: ys => Value.beq x y && Value.beqList xs ys
  | _, _ => false
/-- Structural equality test on map bindings. -/
def Value.beqEntries : List (Scalar × Value) → List (Scalar × Value) → Bool
  | [], [] => true
  | (k, x) :: xs, (l, y) :: ys => k == l && Value.beq x y && Value.beqEntries xs ys
  | _, _ => false
end

/-- Go's `v, exists := m[key]` on a `map[interface{}]interface{}`. -/
def mapGet : List (Scalar × Value) → Scalar → Option Value
  | [], _ => none
  | (k, v) :: rest, key => if k = key then some v else mapGet rest key

/-- Go's `m[key] = val`: the binding of `key` is overwritten where it stands, or
added when the key is absent. -/
def mapSet : List (Scalar × Value) → Scalar → Value → List (Scalar × Value)
  | [], key, val => [(key, val)]
  | (k, v) :: rest, key, val =>
    if k = key then (key, val) :: rest else (k, v) :: mapSet rest key val

/-- A string used as a map key or as a value. -/
abbrev Value.str (s : GoString) : Value := .scalar (.str s)

/-- The value of a top-level field of a document; `none` when the document is not
a map or has no such key. -/
def topLevelField (D : Value) (key : Scalar) : Option Value :=
  match D with
  | .map m => mapGet m key
  | _ => none

/-! ## Typed documents (`kubejax.go` lines 17-36) -/

/-- Source: `type ContextDetail struct`. -/
structure ContextDetail where
  Cluster : GoString
  User : GoString
  Namespace : GoString
deriving DecidableEq, Repr

/-- Source: `type Context struct`. -/
structure Context where
  Name : GoString
  Context : ContextDetail
deriving DecidableEq, Repr

/-- Source: `type KubeConfig struct`.  The fields `Clusters`, `Users` and
`Preferences` are never read by the program and are left out. -/
structure KubeConfig where
  APIVersion : GoString
  Kind : GoString
  Contexts : List Context
  CurrentContext : GoString
deriving DecidableEq, Repr

/-- The YAML library `gopkg.in/yaml.v2`, as used by the program. -/
structure YamlCodec where
  /-- The call `yaml.Unmarshal(data, &rawConfig)` with `rawConfig interface{}`; `none` is an error. -/
  Unmarshal : GoString → Option Value
  /-- The call `yaml.Marshal(rawConfig)`; `none` is an error. -/
  Marshal : Value → Option GoString
  /-- The call `yaml.Unmarshal(data, &kubeconfig)` with `kubeconfig KubeConfig`; `none` is an error. -/
  UnmarshalKubeConfig : GoString → Option KubeConfig

/-- A codec that knows a finite list of documents by their YAML text: it parses
exactly those texts and serialises exactly those documents.  It instantiates
the library in concrete examples. -/
def tableCodec (table : List (GoString × Value)) (typed : List (GoString × KubeConfig)) :
    YamlCodec where
  Unmarshal := fun data => (table.find? (fun e => e.1 == data)).map (fun e => e.2)
  Marshal := fun v => (table.find? (fun e => Value.beq e.2 v)).map (fun e => e.1)
  UnmarshalKubeConfig := fun data => (typed.find? (fun e => e.1 == data)).map (fun e => e.2)

/-! ## Process state and files -/

/-- A Go `error` value, as far as the program distinguishes them. -/
inductive Err
  | io
  | yaml
  | msg (text : GoString)
  | wrap (text : GoString) (cause : Err)
deriving DecidableEq, Repr

/-- The state a command runs in: the package-level variables of lines 72-81
that the modelled functions use, the environment variable `KUBECONFIG`, the
result of `os.UserHomeDir()` (empty when it fails), and the files.  `files path = none` is a file that cannot be read (absent or
unreadable); `writable path` tells whether writing to `path` succeeds.
Standard output is not part of the state. -/
structure State where
  outputConfig : GoString
  previousContext : GoString
  currentContext : GoString
  KUBECONFIG : GoString
  homeDir : GoString
  files : GoString → Option GoString
  writable : GoString → Bool

namespace ioutil

/-- Go's `ioutil.ReadFile`. -/
def ReadFile (s : State) (filename : GoString) : Option GoString :=
  s.files filename

/-- Go's `ioutil.WriteFile`: on success the file holds exactly `data`. -/
def WriteFile (s : State) (filename data : GoString) : Option Err × State :=
  if s.writable filename then
    (none, { s with files := fun p => if p = filename then some data else s.files p })
  else (some Err.io, s)

end ioutil

namespace os

/-- Go's `os.Setenv("KUBECONFIG", value)`: it fails exactly when the value holds a
NUL byte (the key is a constant, valid name). -/
def SetenvKUBECONFIG (s : State) (value : GoString) : Option Err × State :=
  if 0 ∈ value then (some Err.io, s) else (none, { s with KUBECONFIG := value })

end os

/-! ## Config mutator (`kubejax.go` lines 998-1115) -/

/-- The key `current-context`. -/
def keyCurrentContext : Scalar := .str (lit "current-context")

/-- The key `contexts`. -/
def keyContexts : Scalar := .str (lit "contexts")

/-- The key `name`. -/
def keyName : Scalar := .str (lit "name")

/-- The key `context`. -/
def keyContext : Scalar := .str (lit "context")

/-- The key `namespace`. -/
def keyNamespace : Scalar := .str (lit "namespace")

/-- Source: lines 1013-1016 of `setKubeConfig`, the file that receives the path of
the selected config file. -/
def tempFilePath (s : State) : GoString :=
  if s.outputConfig ≠ [] then s.outputConfig else lit "/tmp/kjx-config"

/-- Source: lines 1011-1025 of `setKubeConfig`: record the previous context,
write the config path to the output file, export `KUBECONFIG`. -/
def setKubeConfigPublish (s : State) (filePath : GoString) : Option Err × State :=
  let s1 := { s with previousContext := s.currentContext }
  match ioutil.WriteFile s1 (tempFilePath s1) filePath with
  | (some err, s2) => (some (Err.wrap (lit "failed to write config path to file: ") err), s2)
  | (none, s2) => os.SetenvKUBECONFIG s2 filePath

/-- Source: lines 1037-1039 of `setKubeConfig`:
`if configMap, ok := rawConfig.(map[interface{}]interface{}); ok
  { configMap["current-context"] = contextName }`. -/
def setCurrentContext (rawConfig : Value) (contextName : GoString) : Value :=
  match rawConfig with
  | .map configMap => .map (mapSet configMap keyCurrentContext (Value.str contextName))
  | _ => rawConfig

/-- Source: `setKubeConfig(filePath, contextName string) error`.  The result is
the returned error (`none` for `nil`) and the state the call leaves. -/
def setKubeConfig (y : YamlCodec) (s : State) (filePath contextName : GoString) :
    Option Err × State :=
  match setKubeConfigPublish s filePath with
  | (some err, s1) => (some err, s1)
  | (none, s1) =>
    match ioutil.ReadFile s1 filePath with
    | none => (some Err.io, s1)
    | some originalData =>
      match y.Unmarshal originalData with
      | none => (some Err.yaml, s1)
      | some rawConfig =>
        match y.Marshal (setCurrentContext rawConfig contextName) with
        | none => (some Err.yaml, s1)
        | some data => ioutil.WriteFile s1 filePath data

/-- Source: the loop over `contexts` in `switchToNamespace` (lines 1079-1092).
The first entry that is a map with a string `name` equal to the current context
ends the loop (`break`); its `namespace` is set when its `context` is a map.
The assignment `contextDetail["namespace"] = namespace` acts on the map held by
the entry, so the entry that results holds the updated map under `context`. -/
def setNamespaceLoop (currentContext ns : GoString) : List Value → List Value
  | [] => []
  | ctxInterface :: rest =>
    match ctxInterface with
    | .map ctx =>
      match mapGet ctx keyName with
      | some (.scalar (.str name)) =>
        if name = currentContext then
          match mapGet ctx keyContext with
          | some (.map contextDetail) =>
            .map (mapSet ctx keyContext
              (.map (mapSet contextDetail keyNamespace (Value.str ns)))) :: rest
          | _ => ctxInterface :: rest
        else ctxInterface :: setNamespaceLoop currentContext ns rest
      | _ => ctxInterface :: setNamespaceLoop currentContext ns rest
    | _ => ctxInterface :: setNamespaceLoop currentContext ns rest

/-- Source: lines 1076-1095 of `switchToNamespace`: the edit of the untyped
document.  The loop changes entries of the list held under `contexts`, so the
document that results holds the edited list under that key. -/
def setNamespace (rawConfig : Value) (currentContext ns : GoString) : Value :=
  match rawConfig with
  | .map configMap =>
    match mapGet configMap keyContexts with
    | some (.seq contexts) =>
      .map (mapSet configMap keyContexts
        (.seq (setNamespaceLoop currentContext ns contexts)))
    | _ => rawConfig
  | _ => rawConfig

/-- Source: `switchToNamespace(namespace string, kubeconfig *KubeConfig,
configPath string) error`; `ns` is the parameter `namespace`. -/
def switchToNamespace (y : YamlCodec) (s : State) (ns : GoString)
    (kubeconfig : KubeConfig) (configPath : GoString) : Option Err × State :=
  match ioutil.ReadFile s configPath with
  | none => (some Err.io, s)
  | some originalData =>
    match y.Unmarshal originalData with
    | none => (some Err.yaml, s)
    | some rawConfig =>
      match y.Marshal (setNamespace rawConfig kubeconfig.CurrentContext ns) with
      | none => (some Err.yaml, s)
      | some data => ioutil.WriteFile s configPath data

/-- An entry of the `contexts` list that is a map whose `name` is the string `A`. -/
def EntryNamed (e : Value) (A : GoString) : Prop :=
  ∃ ctx, e = .map ctx ∧ mapGet ctx keyName = some (Value.str A)

/-- The document has, in the list under its top-level key `contexts`, an entry
named `A`. -/
def HasContextNamed (D : Value) (A : GoString) : Prop :=
  ∃ m contexts e, D = .map m ∧ mapGet m keyContexts = some (.seq contexts) ∧
    e ∈ contexts ∧ EntryNamed e A

/-! ## Config repository loader (`kubejax.go` lines 772-818) -/

/-- An item of the listing of the config directory: the `os.FileInfo` fields the
loader reads, and what `loadKubeConfig` returns for the item's path (`none` when
the file cannot be read or parsed). -/
structure DirItem where
  Name : GoString
  IsDir : Bool
  load : Option KubeConfig

/-- The config directory as the loader finds it: absent (`os.Stat` reports that it
does not exist), present but not listable (`ioutil.ReadDir` fails), or listed. -/
inductive DirState
  | missing
  | unreadable
  | listing (files : List DirItem)

/-- Source: lines 804-807 of `loadAllKubeConfigs`, the loop collecting `ctx.Name`. -/
def contextNames : List GoString → List Context → List GoString
  | contexts, [] => contexts
  | contexts, ctx :: rest => contextNames (contexts ++ [ctx.Name]) rest

/-- Source: the loop over `files` in `loadAllKubeConfigs` (lines 784-815).  The
state of the loop is the slice `configInfos` and the names reported so far by
the line `Warning: Could not load ...`.  `Join` is `filepath.Join`. -/
def loadAllLoop (Join : List GoString → GoString) (configDir : GoString) :
    List ConfigInfo × List GoString → List DirItem → List ConfigInfo × List GoString
  | acc, [] => acc
  | (configInfos, warnings), file :: rest =>
    if file.IsDir then loadAllLoop Join configDir (configInfos, warnings) rest
    else
      let filePath := Join [configDir, file.Name]
      if strings.HasPrefix file.Name (lit ".") ||
          strings.HasSuffix file.Name (lit ".log") ||
          strings.HasSuffix file.Name (lit ".txt") ||
          strings.HasSuffix file.Name (lit ".md") then
        loadAllLoop Join configDir (configInfos, warnings) rest
      else
        match file.load with
        | none => loadAllLoop Join configDir (configInfos, warnings ++ [file.Name]) rest
        | some kubeconfig =>
          let contexts := contextNames [] kubeconfig.Contexts
          if contexts.length > 0 then
            loadAllLoop Join configDir
              (configInfos ++ [{ FilePath := filePath, Contexts := contexts }], warnings) rest
          else loadAllLoop Join configDir (configInfos, warnings) rest

/-- Source: `loadAllKubeConfigs() ([]ConfigInfo, error)`, with the directory
`configDir` in the state `dir`.  A successful result carries, next to the
entries, the names of the files for which a warning was printed. -/
def loadAllKubeConfigs (Join : List GoString → GoString) (configDir : GoString)
    (dir : DirState) : Except Err (List ConfigInfo × List GoString) :=
  match dir with
  | .missing => .error (Err.msg (lit "config directory does not exist: " ++ configDir))
  | .unreadable => .error Err.io
  | .listing files => .ok (loadAllLoop Join configDir ([], []) files)

/-- The items the loader considers: not a subdirectory, name not starting with
`.` and not ending in `.log`, `.txt` or `.md`. -/
def Candidate (f : DirItem) : Prop :=
  f.IsDir = false ∧ ¬ (lit "." <+: f.Name) ∧ ¬ (lit ".log" <:+ f.Name) ∧
    ¬ (lit ".txt" <:+ f.Name) ∧ ¬ (lit ".md" <:+ f.Name)

instance (f : DirItem) : Decidable (Candidate f) :=
  inferInstanceAs (Decidable (_ ∧ _))

/-- The entry an item contributes according to the specification: a candidate
that parses and declares at least one context gives the pair of its path and its
context names in document order; any other item gives nothing. -/
def expectedEntry (Join : List GoString → GoString) (configDir : GoString) (f : DirItem) :
    Option ConfigInfo :=
  if Candidate f then
    match f.load with
    | some kubeconfig =>
      if kubeconfig.Contexts = [] then none
      else some { FilePath := Join [configDir, f.Name],
                  Contexts := kubeconfig.Contexts.map (fun ctx => ctx.Name) }
    | none => none
  else none

/-- The warning an item causes according to the specification: a candidate that
cannot be read or parsed is reported by name. -/
def expectedWarning (f : DirItem) : Option GoString :=
  if Candidate f then
    match f.load with
    | some _ => none
    | none => some f.Name
  else none

/-- A path join for concrete examples: the elements separated by `/` (what
`filepath.Join` gives for clean, non-empty elements). -/
def joinSlash : List GoString → GoString
  | [] => []
  | [a] => a
  | a :: b :: rest => a ++ lit "/" ++ joinSlash (b :: rest)

/-! ## Selection orchestrator (`kubejax.go` lines 457-584, 845-872, 998-1008) -/

/-- Source: the inner loop of `switchToContext` (lines 1000-1004), as the test
whether it reaches its `return`: some element of `contexts` equals `contextName`. -/
def declaresContext (contextName : GoString) : List GoString → Bool
  | [] => false
  | context :: rest => if context = contextName then true else declaresContext contextName rest

/-- Source: `switchToContext(contextName string, configInfos []ConfigInfo) error`. -/
def switchToContext (y : YamlCodec) (s : State) (contextName : GoString) :
    List ConfigInfo → Option Err × State
  | [] => (some (Err.msg (lit "context '" ++ contextName ++ lit "' not found")), s)
  | configInfo :: rest =>
    if declaresContext contextName configInfo.Contexts then
      setKubeConfig y s configInfo.FilePath contextName
    else switchToContext y s contextName rest

/-- Source: `loadKubeConfig(filePath string) (*KubeConfig, error)`; `none` is an error. -/
def loadKubeConfig (y : YamlCodec) (s : State) (filePath : GoString) : Option KubeConfig :=
  match ioutil.ReadFile s filePath with
  | none => none
  | some data => y.UnmarshalKubeConfig data

/-- Source: `getCurrentContext() string`. -/
def getCurrentContext (y : YamlCodec) (Join : List GoString → GoString) (s : State) :
    GoString :=
  let kubeconfig :=
    if s.KUBECONFIG = [] then Join [s.homeDir, lit ".kube", lit "config"] else s.KUBECONFIG
  match loadKubeConfig y s kubeconfig with
  | none => []
  | some config => config.CurrentContext

/-- The mode flags of the root command (package-level variables, lines 74-77). -/
structure Flags where
  interactiveMode : Bool
  listMode : Bool
  currentMode : Bool
  searchMode : Bool
deriving DecidableEq, Repr

/-- How a run of `runContextSwitcher` ends.  The branches that hand over to
another function of the program are named after it and carry the state at the
hand-over; the direct-argument branch (lines 556-583) is carried through to the
result of `switchToContext`. -/
inductive Outcome
  | showCurrentContextInfo
  | loadError (err : Err)
  | noKubeconfigFiles
  | searchMode (s : State) (configInfos : List ConfigInfo)
  | listAllContexts (s : State) (configInfos : List ConfigInfo)
  | interactiveContextSelect (s : State) (configInfos : List ConfigInfo)
  | noPreviousContext (s : State)
  | switchToContext (contextName : GoString) (result : Option Err × State)

/-- Source: `runContextSwitcher(cmd *cobra.Command, args []string)`.  The
production warning of lines 565-579 only prints and is left out. -/
def runContextSwitcher (y : YamlCodec) (Join : List GoString → GoString) (flags : Flags)
    (configDir : GoString) (dir : DirState) (s : State) (args : List GoString) : Outcome :=
  if flags.currentMode then Outcome.showCurrentContextInfo
  else
    match loadAllKubeConfigs Join configDir dir with
    | .error err => Outcome.loadError err
    | .ok (configInfos, _) =>
      if configInfos.length = 0 then Outcome.noKubeconfigFiles
      else
        let s1 := { s with currentContext := getCurrentContext y Join s }
        if flags.searchMode then Outcome.searchMode s1 configInfos
        else if flags.listMode then Outcome.listAllContexts s1 configInfos
        else if args.length = 0 || flags.interactiveMode then
          Outcome.interactiveContextSelect s1 configInfos
        else
          let contextName := args.headD []
          if contextName = lit "-" then
            if s1.previousContext = [] then Outcome.noPreviousContext s1
            else
              Outcome.switchToContext s1.previousContext
                (switchToContext y s1 s1.previousContext configInfos)
          else Outcome.switchToContext contextName (switchToContext y s1 contextName configInfos)

/-- The state of a process at its start: the package-level variables
`previousContext` and `currentContext` have their zero value, the empty string;
`outputConfig` is what the flag `--output-config` gives. -/
def processStart (outputConfig KUBECONFIG homeDir : GoString)
    (files : GoString → Option GoString) (writable : GoString → Bool) : State where
  outputConfig := outputConfig
  previousContext := []
  currentContext := []
  KUBECONFIG := KUBECONFIG
  homeDir := homeDir
  files := files
  writable := writable

/-- The flags of a run without mode flags. -/
def noFlags : Flags where
  interactiveMode := false
  listMode := false
  currentMode := false
  searchMode := false

/-- Whether a run ended by calling `switchToContext`. -/
def Outcome.switched : Outcome → Bool
  | .switchToContext _ _ => true
  | _ => false

/-! ## Shell integration (`kubejax.go` lines 86-105, 405-455) -/

/-- Source: the constant `shellFunction`, up to its verb `%s`. -/
def shellFunctionBefore : GoString :=
  lit ("# KUBEJAX shell function\nkjx() \x7b\n    local temp_file=$(mktemp)\n" ++
    "    local kjx_binary=\"")

/-- Source: the constant `shellFunction`, after its verb `%s`. -/
def shellFunctionAfter : GoString :=
  lit ("\"\n    \n    # Run kjx with output-config and pass all arguments\n" ++
    "    if command \"$kjx_binary\" --output-config \"$temp_file\" \"$@\"; then\n" ++
    "        # Check if temp file exists and has content\n" ++
    "        if [ -f \"$temp_file\" ] && [ -s \"$temp_file\" ]; then\n" ++
    "            local new_kubeconfig=$(cat \"$temp_file\")\n" ++
    "            if [ -n \"$new_kubeconfig\" ]; then\n" ++
    "                export KUBECONFIG=\"$new_kubeconfig\"\n" ++
    "                echo \"KUBECONFIG exported: $KUBECONFIG\"\n" ++
    "            fi\n        fi\n    fi\n    \n    # Clean up temp file\n" ++
    "    rm -f \"$temp_file\" 2>/dev/null\n\x7d")

/-- Source: `fmt.Sprintf(shellFunction, execPath)`: the template with its single
verb `%s` replaced by the string argument. -/
def sprintfShellFunction (execPath : GoString) : GoString :=
  shellFunctionBefore ++ execPath ++ shellFunctionAfter

/-- Source: line 430,
`fmt.Sprintf("\n# KUBEJAX shell function (auto-generated)\n%s\n", ...)`. -/
def functionCode (execPath : GoString) : GoString :=
  lit "\n# KUBEJAX shell function (auto-generated)\n" ++ sprintfShellFunction execPath ++
    lit "\n"

/-- Source: the marker tested at line 434. -/
def installMarker : GoString := lit "KUBEJAX shell function"

/-- Source: lines 415-423 of `runInstall`, the choice of the profile file from
`$SHELL`; `none` is the branch "Unsupported shell". -/
def profileFileFor (Join : List GoString → GoString) (shell homeDir : GoString) :
    Option GoString :=
  if strings.Contains shell (lit "zsh") then some (Join [homeDir, lit ".zshrc"])
  else if strings.Contains shell (lit "bash") then some (Join [homeDir, lit ".bashrc"])
  else none

/-- Source: lines 440-450 of `runInstall`: open the profile with
`O_APPEND|O_CREATE|O_WRONLY` and write `functionCode` at its end.  A file that
`files` does not hold is created. -/
def appendToFile (s : State) (profileFile data : GoString) : State :=
  if s.writable profileFile then
    { s with files := fun p =>
        if p = profileFile then some ((s.files profileFile).getD [] ++ data) else s.files p }
  else s

/-- Source: `runInstall(cmd *cobra.Command, args []string)`.  `shell` is the value
of `$SHELL` and `executable` the result of `os.Executable()` (`none` on error);
`os.UserHomeDir()` fails exactly when it has no directory to return. -/
def runInstall (Join : List GoString → GoString) (shell : GoString)
    (executable : Option GoString) (s : State) : State :=
  if s.homeDir = [] then s
  else
    match profileFileFor Join shell s.homeDir with
    | none => s
    | some profileFile =>
      let execPath := match executable with
        | some path => path
        | none => lit "kjx"
      match ioutil.ReadFile s profileFile with
      | some content =>
        if strings.Contains content installMarker then s
        else appendToFile s profileFile (functionCode execPath)
      | none => appendToFile s profileFile (functionCode execPath)

/-- The executable path `runInstall` puts into the function. -/
def execPathOf (executable : Option GoString) : GoString :=
  match executable with
  | some path => path
  | none => lit "kjx"

/-! ## Production classifier on config files (`kubejax.go` lines 217-237) -/

namespace filepath

/-- Go's `filepath.Base` on a Unix system, for concrete examples: the last
element of the path after removal of trailing slashes; `.` for the empty path
and `/` for a path of slashes only. -/
def BaseUnix (path : GoString) : GoString :=
  if path = [] then lit "."
  else
    let stripped := (path.reverse.dropWhile (fun c => c == 47)).reverse
    let last := (stripped.reverse.takeWhile (fun c => c != 47)).reverse
    if last = [] then lit "/" else last

end filepath

/-- Source: `isProductionConfigFile(configFilePath string) bool`.  `Base` is
`filepath.Base` and `ToLower` is `strings.ToLower`. -/
def isProductionConfigFile (Base ToLower : GoString → GoString) (configFilePath : GoString) :
    Option Bool :=
  let fileName := ToLower (Base configFilePath)
  match anyExactWordMatch fileName productionExactKeywords with
  | none => none
  | some true => some true
  | some false => some (anyContains fileName productionKeywords)

/-- Source: `isProductionEnvironmentCombined(contextName, configFilePath string) bool`,
`isProductionEnvironment(contextName) || isProductionConfigFile(configFilePath)`:
the second operand is evaluated only when the first is false. -/
def isProductionEnvironmentCombined (Base ToLower : GoString → GoString)
    (contextName configFilePath : GoString) : Option Bool :=
  match isProductionEnvironment ToLower contextName with
  | none => none
  | some true => some true
  | some false => isProductionConfigFile Base ToLower configFilePath

/-! ## Interactive selection (`kubejax.go` lines 269-308, 515-526, 902-954) -/

/-- Go's `m[key]` on a `map[string]string`: the zero value `""` when the key is
absent. -/
def stringMapGet : List (GoString × GoString) → GoString → GoString
  | [], _ => []
  | (k, v) :: rest, key => if k = key then v else stringMapGet rest key

/-- Go's `m[key] = val` on a `map[string]string`. -/
def stringMapSet : List (GoString × GoString) → GoString → GoString →
    List (GoString × GoString)
  | [], key, val => [(key, val)]
  | (k, v) :: rest, key, val =>
    if k = key then (key, val) :: rest else (k, v) :: stringMapSet rest key val

namespace strings

/-- The expression `strings.Split(s, sep)[0]` for a non-empty `sep`: `Split` cuts
`s` at the occurrences of `sep` it finds from the left with `Index`, so the first
piece is `s` up to the first occurrence, or `s` itself when there is none. -/
def SplitFirst (s sep : GoString) : GoString :=
  match Index s sep with
  | none => s
  | some i => s.take i

end strings

/-- Source: line 913, `fmt.Sprintf("%s (%s)%s", context, fileName, prodIndicator)`. -/
def displayLabel (context fileName prodIndicator : GoString) : GoString :=
  context ++ lit " (" ++ fileName ++ lit ")" ++ prodIndicator

/-- Source: lines 909-912, the production indicator of a context in a file.
`isProductionEnvironmentCombined` always returns (`isProductionEnvironment_spec`). -/
def prodIndicatorOf (Base ToLower : GoString → GoString) (context filePath : GoString) :
    GoString :=
  match isProductionEnvironmentCombined Base ToLower context filePath with
  | some true => lit " 🔴"
  | _ => []

/-- Source: the inner loop of lines 908-916 of `interactiveContextSelect`; the
state is the pair of `items` and `contextMap`. -/
def selectItemsInner (Base ToLower : GoString → GoString) (filePath fileName : GoString) :
    List GoString × List (GoString × GoString) → List GoString →
    List GoString × List (GoString × GoString)
  | acc, [] => acc
  | (items, contextMap), context :: rest =>
    let display := displayLabel context fileName (prodIndicatorOf Base ToLower context filePath)
    selectItemsInner Base ToLower filePath fileName
      (items ++ [display], stringMapSet contextMap display filePath) rest

/-- Source: the outer loop of lines 906-917 of `interactiveContextSelect`. -/
def selectItems (Base ToLower : GoString → GoString) :
    List GoString × List (GoString × GoString) → List ConfigInfo →
    List GoString × List (GoString × GoString)
  | acc, [] => acc
  | acc, configInfo :: rest =>
    selectItems Base ToLower
      (selectItemsInner Base ToLower configInfo.FilePath (Base configInfo.FilePath) acc
        configInfo.Contexts) rest

/-- Source: `interactiveContextSelect(configInfos []ConfigInfo) error`.
`prompt` is the interactive picker `promptui.Select{Items: items}.Run()`: given
the items it returns an error or the item that was chosen.  The production
warning only prints and is left out. -/
def interactiveContextSelect (y : YamlCodec) (Base ToLower : GoString → GoString)
    (prompt : List GoString → Except Err GoString)
    (s : State) (configInfos : List ConfigInfo) : Option Err × State :=
  match selectItems Base ToLower ([], []) configInfos with
  | (items, contextMap) =>
    if items.length = 0 then (some (Err.msg (lit "no contexts available")), s)
    else
      match prompt (sort.Strings items) with
      | .error err => (some err, s)
      | .ok result =>
        let contextName := strings.SplitFirst result (lit " (")
        let filePath := stringMapGet contextMap result
        setKubeConfig y s filePath contextName

/-- Source: the inner loop of lines 274-277 of `interactiveContextSearch`; the
state is the pair of `allContexts` and `contextFileMap`. -/
def searchItemsInner (filePath : GoString) :
    List GoString × List (GoString × GoString) → List GoString →
    List GoString × List (GoString × GoString)
  | acc, [] => acc
  | (allContexts, contextFileMap), context :: rest =>
    searchItemsInner filePath
      (allContexts ++ [context], stringMapSet contextFileMap context filePath) rest

/-- Source: the outer loop of lines 273-278 of `interactiveContextSearch`. -/
def searchItems :
    List GoString × List (GoString × GoString) → List ConfigInfo →
    List GoString × List (GoString × GoString)
  | acc, [] => acc
  | acc, configInfo :: rest =>
    searchItems (searchItemsInner configInfo.FilePath acc configInfo.Contexts) rest

/-- Source: `interactiveContextSearch(configInfos []ConfigInfo) error`.
`searcher` is the interactive picker `promptui.Select{Items: allContexts}.Run()`:
given the items it returns an error or the item that was chosen. -/
def interactiveContextSearch (y : YamlCodec) (searcher : List GoString → Except Err GoString)
    (s : State) (configInfos : List ConfigInfo) : Option Err × State :=
  match searchItems ([], []) configInfos with
  | (allContexts, contextFileMap) =>
    if allContexts.length = 0 then (some (Err.msg (lit "no contexts available")), s)
    else
      match searcher allContexts with
      | .error err => (some err, s)
      | .ok result => setKubeConfig y s (stringMapGet contextFileMap result) result

/-- Source: the inner loop of the search-mode lookup (lines 517-522): at the
first context equal to `target` the variable `matchFilePath` takes the file
path of the entry and the loop ends. -/
def matchFilePathInner (target filePath : GoString) : GoString → List GoString → GoString
  | matchFilePath, [] => matchFilePath
  | matchFilePath, context :: rest =>
    if context = target then filePath else matchFilePathInner target filePath matchFilePath rest

/-- Source: the outer loop of the search-mode lookup (lines 516-526); it ends as
soon as `matchFilePath` is not the empty string. -/
def matchFilePathLoop (target : GoString) : GoString → List ConfigInfo → GoString
  | matchFilePath, [] => matchFilePath
  | matchFilePath, configInfo :: rest =>
    if matchFilePathInner target configInfo.FilePath matchFilePath configInfo.Contexts ≠ [] then
      matchFilePathInner target configInfo.FilePath matchFilePath configInfo.Contexts
    else
      matchFilePathLoop target
        (matchFilePathInner target configInfo.FilePath matchFilePath configInfo.Contexts) rest

/-- How the search branch with a term (lines 477-535 of `runContextSwitcher`)
ends: no match; several matches, which are listed and none selected; or a single
match, for which `matchFilePath` is looked up (lines 515-526) and
`switchToContext` is called. -/
inductive SearchOutcome
  | noMatches
  | listed (found : List GoString)
  | singleMatch (matchFilePath : GoString) (result : Option Err × State)

/-- Source: lines 477-535 of `runContextSwitcher`, the search with a term.  The
lookup of lines 515-526 starts from `var matchFilePath string` and runs only
under `len(matches) == 1`.  The lines that print the list are left out. -/
def searchModeWithTerm (y : YamlCodec) (ToLower : GoString → GoString) (s : State)
    (configInfos : List ConfigInfo) (searchTerm : GoString) : SearchOutcome :=
  let found := searchContexts ToLower configInfos searchTerm
  if found.length = 0 then SearchOutcome.noMatches
  else if found.length = 1 then
    SearchOutcome.singleMatch (matchFilePathLoop (found.headD []) [] configInfos)
      (switchToContext y s (found.headD []) configInfos)
  else SearchOutcome.listed found

/-- The first entry of the registry, in registry order, that declares `c`. -/
def firstDeclaring (c : GoString) (registry : List ConfigInfo) : Option ConfigInfo :=
  registry.find? (fun e => decide (c ∈ e.Contexts))

/-- The last entry of the registry that declares `c`. -/
def lastDeclaring (c : GoString) (registry : List ConfigInfo) : Option ConfigInfo :=
  registry.reverse.find? (fun e => decide (c ∈ e.Contexts))

/-! ## Example documents and states -/

/-- The document `{current-context: a, kind: Config}`. -/
def docContextA : Value :=
  .map [(keyCurrentContext, Value.str (lit "a")), (.str (lit "kind"), Value.str (lit "Config"))]

/-- The document `{current-context: b, kind: Config}`. -/
def docContextB : Value :=
  .map [(keyCurrentContext, Value.str (lit "b")), (.str (lit "kind"), Value.str (lit "Config"))]

/-- The document `{kind: Config}`, without a `current-context`. -/
def docNoContext : Value :=
  .map [(.str (lit "kind"), Value.str (lit "Config"))]

/-- The document `{kind: Config, current-context: b}`: `docNoContext` after the
assignment of `current-context`. -/
def docNoContextB : Value :=
  .map [(.str (lit "kind"), Value.str (lit "Config")), (keyCurrentContext, Value.str (lit "b"))]

/-- A document that is a list, not a map: `[a]`. -/
def docList : Value := .seq [Value.str (lit "a")]

/-- The example codec: the YAML texts of the example documents. -/
def exampleCodec : YamlCodec :=
  tableCodec
    [(lit "current-context: a\nkind: Config\n", docContextA),
     (lit "current-context: b\nkind: Config\n", docContextB),
     (lit "kind: Config\n", docNoContext),
     (lit "current-context: b\nkind: Config\n", docNoContextB),
     (lit "- a\n", docList)]
    []

/-- A fresh process state in which the file `/k/c1` holds `content`, every file is
writable and no output-config flag is given. -/
def stateWithFile (content : GoString) : State where
  outputConfig := []
  previousContext := []
  currentContext := []
  KUBECONFIG := []
  homeDir := lit "/home/u"
  files := fun p => if p = lit "/k/c1" then some content else none
  writable := fun _ => true

/-- The detail map `{cluster: <cluster>, namespace: <ns>}` of a context entry. -/
def detailOf (cluster ns : GoString) : List (Scalar × Value) :=
  [(.str (lit "cluster"), Value.str cluster), (keyNamespace, Value.str ns)]

/-- The context entry `{context: {cluster: <cluster>, namespace: <ns>}, name: <name>}`. -/
def entryOf (name cluster ns : GoString) : Value :=
  .map [(keyContext, .map (detailOf cluster ns)), (keyName, Value.str name)]

/-- The document `{contexts: <entries>, kind: Config}`. -/
def docOfContexts (entries : List Value) : Value :=
  .map [(keyContexts, .seq entries), (.str (lit "kind"), Value.str (lit "Config"))]

/-- YAML text of the document with the single context `a` in namespace `x`. -/
def textOneX : GoString :=
  lit "contexts:\n- context:\n    cluster: k1\n    namespace: x\n  name: a\nkind: Config\n"

/-- YAML text of the document with the single context `a` in namespace `y`. -/
def textOneY : GoString :=
  lit "contexts:\n- context:\n    cluster: k1\n    namespace: y\n  name: a\nkind: Config\n"

/-- YAML text of a document with two entries named `a`, both in namespace `x`. -/
def textTwoX : GoString :=
  lit ("contexts:\n- context:\n    cluster: k1\n    namespace: x\n  name: a\n" ++
    "- context:\n    cluster: k2\n    namespace: x\n  name: a\nkind: Config\n")

/-- YAML text of that document with the first entry in namespace `y`. -/
def textTwoY : GoString :=
  lit ("contexts:\n- context:\n    cluster: k1\n    namespace: y\n  name: a\n" ++
    "- context:\n    cluster: k2\n    namespace: x\n  name: a\nkind: Config\n")

/-- The example codec for documents with contexts. -/
def contextsCodec : YamlCodec :=
  tableCodec
    [(textOneX, docOfContexts [entryOf (lit "a") (lit "k1") (lit "x")]),
     (textOneY, docOfContexts [entryOf (lit "a") (lit "k1") (lit "y")]),
     (textTwoX, docOfContexts [entryOf (lit "a") (lit "k1") (lit "x"),
        entryOf (lit "a") (lit "k2") (lit "x")]),
     (textTwoY, docOfContexts [entryOf (lit "a") (lit "k1") (lit "y"),
        entryOf (lit "a") (lit "k2") (lit "x")])]
    []

/-- A typed configuration whose current context is `name`. -/
def kubeConfigWithCurrent (name : GoString) : KubeConfig where
  APIVersion := lit "v1"
  Kind := lit "Config"
  Contexts := []
  CurrentContext := name

/-- A typed configuration declaring the contexts `names`, in that order. -/
def kubeConfigDeclaring (names : List GoString) : KubeConfig where
  APIVersion := lit "v1"
  Kind := lit "Config"
  Contexts := names.map (fun n =>
    { Name := n, Context := { Cluster := [], User := [], Namespace := [] } })
  CurrentContext := []

/-- A directory with the valid file `c1`, declaring the contexts `a` and `b`, and
the unreadable file `c2`. -/
def exampleListing : List DirItem :=
  [{ Name := lit "c1", IsDir := false, load := some (kubeConfigDeclaring [lit "a", lit "b"]) },
   { Name := lit "c2", IsDir := false, load := none }]

/-- A process started as `kjx -`: no flag, `KUBECONFIG` pointing at `/k/c1`, whose
typed parse has the current context `b` (an earlier invocation switched from `a`
to `b`). -/
def dashStart : State :=
  processStart [] (lit "/k/c1") (lit "/home/u")
    (fun p => if p = lit "/k/c1" then some (lit "current-context: b\n") else none)
    (fun _ => true)

/-- The codec of the `kjx -` example. -/
def dashCodec : YamlCodec :=
  tableCodec
    [(lit "current-context: b\n", .map [(keyCurrentContext, Value.str (lit "b"))]),
     (lit "current-context: a\n", .map [(keyCurrentContext, Value.str (lit "a"))])]
    [(lit "current-context: b\n",
      { APIVersion := [], Kind := [], Contexts := [], CurrentContext := lit "b" })]

/-- A state for `install`: home directory `/home/u`, a writable `.zshrc` holding
one line. -/
def installStart : State :=
  processStart [] [] (lit "/home/u")
    (fun p => if p = lit "/home/u/.zshrc" then some (lit "export A=1\n") else none)
    (fun _ => true)

/-- A registry of two files: `/k/c1` declaring `a` and `b`, `/k/c2` declaring `b`. -/
def exampleRegistry : List ConfigInfo :=
  [{ FilePath := lit "/k/c1", Contexts := [lit "a", lit "b"] },
   { FilePath := lit "/k/c2", Contexts := [lit "b"] }]

/-- A registry whose file `/k/c1` declares the context `team (eu)`. -/
def parenRegistry : List ConfigInfo :=
  [{ FilePath := lit "/k/c1", Contexts := [lit "team (eu)"] }]

/-- A picker that chooses the first item shown. -/
def pickFirst : List GoString → Except Err GoString
  | [] => .error Err.io
  | item :: _ => .ok item

/-- The codec of the `team (eu)` example. -/
def parenCodec : YamlCodec :=
  tableCodec
    [(lit "current-context: team (eu)\n",
        .map [(keyCurrentContext, Value.str (lit "team (eu)"))]),
     (lit "current-context: team\n", .map [(keyCurrentContext, Value.str (lit "team"))])]
    []

/-- The example codec extended by the YAML text of the string `/k/c1`: it is
written `/k/c1` followed by a line end, and the bare path text parses to it too. -/
def aliasCodec : YamlCodec :=
  tableCodec
    [(lit "current-context: a\nkind: Config\n", docContextA),
     (lit "current-context: b\nkind: Config\n", docContextB),
     (lit "kind: Config\n", docNoContext),
     (lit "/k/c1\n", Value.str (lit "/k/c1")),
     (lit "/k/c1", Value.str (lit "/k/c1"))]
    []

/-- A process started with `--output-config /k/c1`, the file `/k/c1` holding
`{current-context: a, kind: Config}`. -/
def aliasState : State :=
  { stateWithFile (lit "current-context: a\nkind: Config\n") with outputConfig := lit "/k/c1" }

/-- A process started with `--output-config /k/c1`, the file `/k/c1` holding
`{kind: Config}`. -/
def aliasStateNoContext : State :=
  { stateWithFile (lit "kind: Config\n") with outputConfig := lit "/k/c1" }

/-- The state of the `kjx -` example with a recorded previous context `a`. -/
def dashBack : State :=
  { dashStart with previousContext := lit "a" }

/-! ## Facts about `strings.Index` -/

theorem occursAt_succ_cons (c : Nat) (s k : GoString) (j : Nat) :
    OccursAt (c :: s) k (j + 1) ↔ OccursAt s k j := by
  simp [OccursAt]

theorem occursAt_zero (s k : GoString) : OccursAt s k 0 ↔ k <+: s := by
  simp [OccursAt]

theorem occursAt_length {s k : GoString} {i : Nat} (h : OccursAt s k i) (hk : k ≠ []) :
    i + k.length ≤ s.length := by
  have h1 := h.length_le
  rw [List.length_drop] at h1
  have h2 : 0 < k.length := List.length_pos.mpr hk
  omega

theorem index_some {s k : GoString} {i : Nat} (h : strings.Index s k = some i) :
    OccursAt s k i ∧ ∀ j, j < i → ¬ OccursAt s k j := by
  induction s generalizing i with
  | nil =>
    unfold strings.Index at h
    split at h
    · rename_i hp
      cases h
      exact ⟨(occursAt_zero _ _).2 (List.isPrefixOf_iff_prefix.1 hp), fun j hj => by omega⟩
    · cases h
  | cons c s ih =>
    unfold strings.Index at h
    split at h
    · rename_i hp
      cases h
      exact ⟨(occursAt_zero _ _).2 (List.isPrefixOf_iff_prefix.1 hp), fun j hj => by omega⟩
    · rename_i hp
      cases hi : strings.Index s k with
      | none => rw [hi] at h; cases h
      | some i0 =>
        rw [hi] at h
        simp only [Option.map_some', Option.some.injEq] at h
        subst h
        obtain ⟨h1, h2⟩ := ih hi
        refine ⟨(occursAt_succ_cons _ _ _ _).2 h1, ?_⟩
        intro j hj
        cases j with
        | zero =>
          intro hocc
          exact hp (List.isPrefixOf_iff_prefix.2 ((occursAt_zero _ _).1 hocc))
        | succ j =>
          rw [occursAt_succ_cons]
          exact h2 j (by omega)

theorem index_none {s k : GoString} (h : strings.Index s k = none) :
    ∀ j, ¬ OccursAt s k j := by
  induction s with
  | nil =>
    unfold strings.Index at h
    split at h
    · cases h
    · rename_i hp
      intro j hocc
      apply hp
      have : k <+: [] := by simpa [OccursAt] using hocc
      exact List.isPrefixOf_iff_prefix.2 this
  | cons c s ih =>
    unfold strings.Index at h
    split at h
    · cases h
    · rename_i hp
      cases hi : strings.Index s k with
      | some i0 => rw [hi] at h; cases h
      | none =>
        intro j
        cases j with
        | zero =>
          intro hocc
          exact hp (List.isPrefixOf_iff_prefix.2 ((occursAt_zero _ _).1 hocc))
        | succ j =>
          rw [occursAt_succ_cons]
          exact ih hi j

theorem occursAt_le_length {s k : GoString} {i : Nat} (h : OccursAt s k i) :
    ∃ j, j ≤ s.length ∧ OccursAt s k j := by
  by_cases hi : i ≤ s.length
  · exact ⟨i, hi, h⟩
  · refine ⟨s.length, le_refl _, ?_⟩
    have h1 : s.drop i = [] := List.drop_eq_nil_of_le (by omega)
    have h2 : s.drop s.length = [] := List.drop_eq_nil_of_le (le_refl _)
    unfold OccursAt at *
    rw [h2, ← h1]
    exact h

theorem contains_iff (s k : GoString) : strings.Contains s k = true ↔ IsSubstring k s := by
  unfold strings.Contains IsSubstring
  cases h : strings.Index s k with
  | none =>
    have := index_none h
    simp only [Option.isSome_none, Bool.false_eq_true, false_iff, not_exists, not_and]
    exact fun j _ => this j
  | some i =>
    simp only [Option.isSome_some, true_iff]
    exact occursAt_le_length (index_some h).1

theorem occursAt_drop (T K : GoString) (p j : Nat) :
    OccursAt (T.drop p) K j ↔ OccursAt T K (j + p) := by
  simp [OccursAt, List.drop_drop, Nat.add_comm]

/-! ## Facts about the scanning loop of `isExactWordMatch` -/

theorem utf8EncodeRune_eq_singleton (c b : Nat) (hb : b < 128) :
    utf8EncodeRune c = [b] ↔ c = b := by
  unfold utf8EncodeRune
  constructor
  · intro h
    split at h
    · simpa using h
    · split at h
      · simp at h
      · split at h <;> simp at h
  · intro h
    subst h
    simp [hb]

theorem isWordSeparator_iff (c : Nat) :
    isWordSeparator c separators = true ↔ IsSeparatorByte c := by
  have h1 : lit "-" = [45] := by decide
  have h2 : lit "_" = [95] := by decide
  have h3 : lit "." = [46] := by decide
  have h4 : lit " " = [32] := by decide
  simp only [separators, isWordSeparator, h1, h2, h3, h4, IsSeparatorByte,
    utf8EncodeRune_eq_singleton c 45 (by omega), utf8EncodeRune_eq_singleton c 95 (by omega),
    utf8EncodeRune_eq_singleton c 46 (by omega), utf8EncodeRune_eq_singleton c 32 (by omega)]
  by_cases a1 : c = 45 <;> by_cases a2 : c = 95 <;> by_cases a3 : c = 46 <;>
    by_cases a4 : c = 32 <;> simp [a1, a2, a3, a4]

theorem separatorAt_iff (T : GoString) (j : Nat) :
    separatorAt T j = true ↔ ∃ c, T.get? j = some c ∧ IsSeparatorByte c := by
  unfold separatorAt
  cases h : T.get? j with
  | none => simp
  | some c => simp [isWordSeparator_iff]

theorem occursAt_get {T K : GoString} {i : Nat} (h : OccursAt T K i) (m : Nat)
    (hm : m < K.length) : T.get? (i + m) = K.get? m := by
  obtain ⟨t, ht⟩ := h
  have h1 : (T.drop i).get? m = T.get? (i + m) := by simp [List.getElem?_drop]
  rw [← h1, ← ht]
  simp [List.getElem?_append_left hm]

/-- The two boundary tests of the loop body, read as the specification's conditions. -/
theorem valid_iff_bounded {T K : GoString} {i : Nat} (h : OccursAt T K i) (hk : K ≠ []) :
    (((i == 0) || separatorAt T (i - 1)) &&
      (decide (i + K.length ≥ T.length) || separatorAt T (i + K.length))) = true ↔
    BoundedOccurrence T K i := by
  have hlen := occursAt_length h hk
  simp only [Bool.and_eq_true, Bool.or_eq_true, beq_iff_eq, decide_eq_true_eq,
    separatorAt_iff, BoundedOccurrence, h, true_and]
  constructor
  · rintro ⟨a, b⟩
    refine ⟨a, ?_⟩
    rcases b with b | b
    · left; omega
    · right; exact b
  · rintro ⟨a, b⟩
    refine ⟨a, ?_⟩
    rcases b with b | b
    · left; omega
    · right; exact b

theorem loop_spec (T K : GoString) (hk : K ≠ []) :
    ∀ fuel p, p ≤ T.length → T.length - p < fuel →
      ∃ b, isExactWordMatchLoop T K fuel (nextIndex T K p) = some b ∧
        (b = true → ∃ i, BoundedOccurrence T K i) ∧
        (SeparatorFree K → ∀ j, p ≤ j → BoundedOccurrence T K j → b = true) := by
  intro fuel
  induction fuel with
  | zero => intro p _ h; omega
  | succ fuel ih =>
    intro p hp hfuel
    cases hidx : strings.Index (T.drop p) K with
    | none =>
      refine ⟨false, ?_, by simp, ?_⟩
      · simp [nextIndex, hidx, isExactWordMatchLoop]
      · intro _ j hj hb
        exfalso
        have hocc : OccursAt (T.drop p) K (j - p) := by
          rw [occursAt_drop]
          have : j - p + p = j := by omega
          rw [this]
          exact hb.1
        exact index_none hidx _ hocc
    | some i0 =>
      obtain ⟨hocc0, hmin⟩ := index_some hidx
      have hocc : OccursAt T K (i0 + p) := (occursAt_drop T K p i0).1 hocc0
      have hlen := occursAt_length hocc hk
      have hkpos : 0 < K.length := List.length_pos.mpr hk
      have hloop : isExactWordMatchLoop T K (fuel + 1) (nextIndex T K p) =
          if (((i0 + p == 0) || separatorAt T (i0 + p - 1)) &&
              (decide (i0 + p + K.length ≥ T.length) || separatorAt T (i0 + p + K.length))) = true
          then some true
          else isExactWordMatchLoop T K fuel (nextIndex T K (i0 + p + K.length)) := by
        simp only [nextIndex, hidx, Option.map_some', isExactWordMatchLoop]
      rw [hloop]
      by_cases hv : (((i0 + p == 0) || separatorAt T (i0 + p - 1)) &&
              (decide (i0 + p + K.length ≥ T.length) || separatorAt T (i0 + p + K.length))) = true
      · rw [if_pos hv]
        exact ⟨true, rfl, fun _ => ⟨_, (valid_iff_bounded hocc hk).1 hv⟩, fun _ _ _ _ => rfl⟩
      · rw [if_neg hv]
        obtain ⟨b, hb, hsound, hcompl⟩ := ih (i0 + p + K.length) hlen (by omega)
        refine ⟨b, hb, hsound, ?_⟩
        intro hsf j hj hbj
        apply hcompl hsf j _ hbj
        by_contra hlt
        have hji : i0 + p ≤ j := by
          by_contra hlt2
          have hocc1 : OccursAt (T.drop p) K (j - p) := by
            rw [occursAt_drop]
            have : j - p + p = j := by omega
            rw [this]
            exact hbj.1
          exact hmin (j - p) (by omega) hocc1
        have hne : j ≠ i0 + p := by
          intro heq
          subst heq
          exact hv ((valid_iff_bounded hocc hk).2 hbj)
        obtain ⟨_, hstart, _⟩ := hbj
        rcases hstart with h0 | ⟨c, hc, hsep⟩
        · omega
        · have hget := occursAt_get hocc (j - 1 - (i0 + p)) (by omega)
          have heq : i0 + p + (j - 1 - (i0 + p)) = j - 1 := by omega
          rw [heq, hc] at hget
          have hmem : c ∈ K := by
            have := List.get?_mem hget.symm
            exact this
          exact hsf c hmem hsep

theorem isExactWordMatch_spec (T K : GoString) (hk : K ≠ []) :
    ∃ b, isExactWordMatch T K = some b ∧
      (b = true → ∃ i, BoundedOccurrence T K i) ∧
      (SeparatorFree K → (∃ i, BoundedOccurrence T K i) → b = true) := by
  obtain ⟨b, hb, h1, h2⟩ := loop_spec T K hk (T.length + 1) 0 (by omega) (by omega)
  refine ⟨b, ?_, h1, fun hsf ⟨i, hi⟩ => h2 hsf i (by omega) hi⟩
  have : nextIndex T K 0 = strings.Index T K := by
    simp [nextIndex]
  rw [this] at hb
  exact hb

/-! ## The production classifier -/

/-- C1 (as amended): for every text `T` and every non-empty keyword `K`,
`isExactWordMatch(T, K)` returns; if it returns true then `K` occurs in `T` at a
position bounded on both sides by a separator or a string edge; and when `K`
contains none of the separators, every such bounded occurrence makes it return
true. -/
theorem isExactWordMatch_bounded_occurrence (T K : GoString) (hk : K ≠ []) :
    (∃ b, isExactWordMatch T K = some b) ∧
    (isExactWordMatch T K = some true → ∃ i, BoundedOccurrence T K i) ∧
    (SeparatorFree K →
      ((∃ i, BoundedOccurrence T K i) → isExactWordMatch T K = some true)) := by
  obtain ⟨b, hb, h1, h2⟩ := isExactWordMatch_spec T K hk
  refine ⟨⟨b, hb⟩, ?_, ?_⟩
  · intro h
    rw [hb] at h
    exact h1 (by simpa using h)
  · intro hsf hex
    rw [hb, h2 hsf hex]

/-- C1, witness: the theorem at `T = "my-prod-cluster"`, `K = "prod"` (non-empty
and separator-free), together with the three evaluations named by the
specification. -/
theorem isExactWordMatch_bounded_occurrence_witness :
    lit "prod" ≠ [] ∧ SeparatorFree (lit "prod") ∧
    (∃ b, isExactWordMatch (lit "my-prod-cluster") (lit "prod") = some b) ∧
    (isExactWordMatch (lit "my-prod-cluster") (lit "prod") = some true →
        ∃ i, BoundedOccurrence (lit "my-prod-cluster") (lit "prod") i) ∧
    ((∃ i, BoundedOccurrence (lit "my-prod-cluster") (lit "prod") i) →
        isExactWordMatch (lit "my-prod-cluster") (lit "prod") = some true) ∧
    isExactWordMatch (lit "my-prod-cluster") (lit "prod") = some true ∧
    isExactWordMatch (lit "production") (lit "prod") = some false ∧
    isExactWordMatch (lit "prod") (lit "prod") = some true :=
  ⟨by decide, by decide,
   (isExactWordMatch_bounded_occurrence (lit "my-prod-cluster") (lit "prod") (by decide)).1,
   (isExactWordMatch_bounded_occurrence (lit "my-prod-cluster") (lit "prod") (by decide)).2.1,
   (isExactWordMatch_bounded_occurrence (lit "my-prod-cluster") (lit "prod") (by decide)).2.2
     (by decide),
   by decide, by decide, by decide⟩

/-- C1, counterexample to the claim as stated: in `"xa.a.a"` the keyword `"a.a"`
occurs at position 3 between the separator `.` and the end of the string, and
`isExactWordMatch` returns false, because the scan resumes after the end of the
unbounded occurrence at position 1 and so skips the overlapping one. -/
theorem isExactWordMatch_overlap_counterexample :
    lit "a.a" ≠ [] ∧
    isExactWordMatch (lit "xa.a.a") (lit "a.a") = some false ∧
    BoundedOccurrence (lit "xa.a.a") (lit "a.a") 3 :=
  ⟨by decide, by decide, by decide, Or.inr ⟨46, by decide, by decide⟩, Or.inl (by decide)⟩

/-- The classifier on the lower-cased text, read against the specification. -/
theorem isProductionEnvironment_spec (ToLower : GoString → GoString) (T : GoString) :
    (∃ b, isProductionEnvironment ToLower T = some b) ∧
    (isProductionEnvironment ToLower T = some true ↔
      ((∃ i, BoundedOccurrence (ToLower T) (lit "prod") i) ∨
        IsSubstring (lit "prd") (ToLower T) ∨
        IsSubstring (lit "production") (ToLower T))) := by
  obtain ⟨b, hb, h1, h2⟩ := isExactWordMatch_spec (ToLower T) (lit "prod") (by decide)
  have hsf : SeparatorFree (lit "prod") := by decide
  cases b with
  | true =>
    have hp : isProductionEnvironment ToLower T = some true := by
      simp [isProductionEnvironment, productionExactKeywords, anyExactWordMatch, hb]
    exact ⟨⟨true, hp⟩, ⟨fun _ => Or.inl (h1 rfl), fun _ => hp⟩⟩
  | false =>
    have hno : ¬ ∃ i, BoundedOccurrence (ToLower T) (lit "prod") i := by
      intro hex
      have := h2 hsf hex
      cases this
    have hp : isProductionEnvironment ToLower T =
        some (strings.Contains (ToLower T) (lit "prd") ||
          strings.Contains (ToLower T) (lit "production")) := by
      simp only [isProductionEnvironment, productionExactKeywords, anyExactWordMatch, hb,
        productionKeywords, anyContains]
      cases strings.Contains (ToLower T) (lit "prd") <;>
        cases strings.Contains (ToLower T) (lit "production") <;> rfl
    refine ⟨⟨_, hp⟩, ?_⟩
    rw [hp]
    simp only [Option.some.injEq, Bool.or_eq_true, contains_iff]
    constructor
    · intro h; exact Or.inr h
    · rintro (h | h)
      · exact absurd h hno
      · exact h

/-- C2: for every string `T` (and whatever `strings.ToLower` computes),
`isProductionEnvironment(T)` returns, and it returns true exactly when the
lower-cased `T` contains "prod" as a whole word (bounded on each side by a
separator or a string edge) or contains "prd" or "production" as a substring;
in particular it is true on "staging-prd" and "nonproduction" and false on "dev". -/
theorem isProductionEnvironment_iff_keywords :
    (∀ (ToLower : GoString → GoString) (T : GoString),
      (∃ b, isProductionEnvironment ToLower T = some b) ∧
      (isProductionEnvironment ToLower T = some true ↔
        ((∃ i, BoundedOccurrence (ToLower T) (lit "prod") i) ∨
          IsSubstring (lit "prd") (ToLower T) ∨
          IsSubstring (lit "production") (ToLower T)))) ∧
    isProductionEnvironment strings.ToLowerASCII (lit "staging-prd") = some true ∧
    isProductionEnvironment strings.ToLowerASCII (lit "nonproduction") = some true ∧
    isProductionEnvironment strings.ToLowerASCII (lit "dev") = some false :=
  ⟨isProductionEnvironment_spec, by decide, by decide, by decide⟩

/-! ## Search -/

theorem stringLE_refl (a : GoString) : stringLE a a = true := by
  induction a with
  | nil => rfl
  | cons x s ih => simp [stringLE, ih]

theorem stringLE_total (a b : GoString) : stringLE a b = true ∨ stringLE b a = true := by
  induction a generalizing b with
  | nil => left; rfl
  | cons x s ih =>
    cases b with
    | nil => right; rfl
    | cons y t =>
      simp only [stringLE, Bool.or_eq_true, decide_eq_true_eq, Bool.and_eq_true, beq_iff_eq]
      rcases Nat.lt_trichotomy x y with h | h | h
      · left; left; exact h
      · rcases ih t with h2 | h2
        · left; right; exact ⟨h, h2⟩
        · right; right; exact ⟨h.symm, h2⟩
      · right; left; exact h

theorem stringLE_trans {a b c : GoString} (h1 : stringLE a b = true)
    (h2 : stringLE b c = true) : stringLE a c = true := by
  induction a generalizing b c with
  | nil => rfl
  | cons x s ih =>
    cases b with
    | nil => simp [stringLE] at h1
    | cons y t =>
      cases c with
      | nil => simp [stringLE] at h2
      | cons z u =>
        simp only [stringLE, Bool.or_eq_true, decide_eq_true_eq, Bool.and_eq_true,
          beq_iff_eq] at h1 h2 ⊢
        rcases h1 with h1 | ⟨h1, h1'⟩
        · rcases h2 with h2 | ⟨h2, _⟩
          · left; omega
          · left; omega
        · rcases h2 with h2 | ⟨h2, h2'⟩
          · left; omega
          · right; exact ⟨by omega, ih h1' h2'⟩

theorem stringLE_antisymm {a b : GoString} (h1 : stringLE a b = true)
    (h2 : stringLE b a = true) : a = b := by
  induction a generalizing b with
  | nil =>
    cases b with
    | nil => rfl
    | cons y t => simp [stringLE] at h2
  | cons x s ih =>
    cases b with
    | nil => simp [stringLE] at h1
    | cons y t =>
      simp only [stringLE, Bool.or_eq_true, decide_eq_true_eq, Bool.and_eq_true,
        beq_iff_eq] at h1 h2
      rcases h1 with h1 | ⟨h1, h1'⟩
      · rcases h2 with h2 | ⟨h2, _⟩ <;> omega
      · rcases h2 with h2 | ⟨_, h2'⟩
        · omega
        · rw [h1, ih h1' h2']

/-- Go's string order is the lexicographic order of the byte sequences. -/
theorem stringLE_iff_lex (a b : GoString) :
    stringLE a b = true ↔ (a = b ∨ List.Lex (· < ·) a b) := by
  induction a generalizing b with
  | nil =>
    cases b with
    | nil => simp [stringLE]
    | cons y t => simpa [stringLE] using List.Lex.nil
  | cons x s ih =>
    cases b with
    | nil => simp [stringLE]
    | cons y t =>
      simp only [stringLE, Bool.or_eq_true, decide_eq_true_eq, Bool.and_eq_true, beq_iff_eq,
        ih, List.cons.injEq, List.Lex.cons_iff]
      constructor
      · rintro (h | ⟨h, h2 | h2⟩)
        · right; exact List.Lex.rel h
        · left; exact ⟨h, h2⟩
        · right; subst h; exact List.Lex.cons h2
      · rintro (⟨h, h2⟩ | h)
        · right; exact ⟨h, Or.inl h2⟩
        · cases h with
          | rel h => left; exact h
          | cons h => right; exact ⟨rfl, Or.inr h⟩

instance stringLE_isTotal : IsTotal GoString (fun a b => stringLE a b = true) :=
  ⟨stringLE_total⟩

instance stringLE_isTrans : IsTrans GoString (fun a b => stringLE a b = true) :=
  ⟨fun _ _ _ => stringLE_trans⟩

instance stringLE_isAntisymm : IsAntisymm GoString (fun a b => stringLE a b = true) :=
  ⟨fun _ _ => stringLE_antisymm⟩

theorem sortStrings_sorted (x : List GoString) :
    List.Sorted (fun a b => stringLE a b = true) (sort.Strings x) :=
  List.sorted_insertionSort _ x

theorem sortStrings_perm (x : List GoString) : (sort.Strings x).Perm x :=
  List.perm_insertionSort _ x

/-- Any increasing rearrangement of `x` is `sort.Strings x`: the model of the
library sort does not depend on the algorithm. -/
theorem sortStrings_unique (x y : List GoString) (hp : y.Perm x)
    (hs : List.Sorted (fun a b => stringLE a b = true) y) : y = sort.Strings x :=
  List.eq_of_perm_of_sorted (hp.trans (sortStrings_perm x).symm) hs (sortStrings_sorted x)

theorem collectMatches_eq (ToLower : GoString → GoString) (searchLower : GoString)
    (matched names : List GoString) :
    collectMatches ToLower searchLower matched names =
      matched ++ names.filter (fun n => strings.Contains (ToLower n) searchLower) := by
  induction names generalizing matched with
  | nil => simp [collectMatches]
  | cons n rest ih =>
    unfold collectMatches
    by_cases h : strings.Contains (ToLower n) searchLower = true
    · simp [h, ih]
    · simp [h, ih]

theorem collectContextMatches_eq (ToLower : GoString → GoString) (searchLower : GoString)
    (matched : List GoString) (configInfos : List ConfigInfo) :
    collectContextMatches ToLower searchLower matched configInfos =
      matched ++ (configInfos.flatMap (fun c => c.Contexts)).filter
        (fun n => strings.Contains (ToLower n) searchLower) := by
  induction configInfos generalizing matched with
  | nil => simp [collectContextMatches]
  | cons c rest ih =>
    unfold collectContextMatches
    rw [ih, collectMatches_eq]
    simp [List.flatMap_cons, List.filter_append]

theorem count_sort_filter (ToLower : GoString → GoString) (t : GoString)
    (H : List GoString) (x : GoString) :
    (sort.Strings (H.filter (fun n => strings.Contains (ToLower n) (ToLower t)))).count x =
      if IsSubstring (ToLower t) (ToLower x) then H.count x else 0 := by
  have hc : ∀ l : List GoString, (sort.Strings l).count x = l.count x := fun l =>
    (sortStrings_perm l).countP_eq _
  rw [hc]
  by_cases h : IsSubstring (ToLower t) (ToLower x)
  · rw [if_pos h]
    exact List.count_filter (by simpa using (contains_iff _ _).2 h)
  · rw [if_neg h]
    apply List.count_eq_zero.2
    intro hmem
    exact h ((contains_iff _ _).1 (by simpa using (List.mem_filter.1 hmem).2))

/-- C3: for every list of names `H` and term `t`, `searchNamespaces(H, t)` is in
ascending lexicographic order and holds exactly the elements of `H`, with their
multiplicity, whose lower-cased form contains the lower-cased `t`;
`searchContexts` is the same over the concatenation of the context lists of all
entries; and `search(["Alpha","beta","ALPHA-2"], "alpha") = ["ALPHA-2","Alpha"]`. -/
theorem search_sorted_exact_matches :
    (∀ (ToLower : GoString → GoString) (H : List GoString) (t : GoString),
      List.Sorted (fun a b => stringLE a b = true) (searchNamespaces ToLower H t) ∧
      ∀ x, (searchNamespaces ToLower H t).count x =
        if IsSubstring (ToLower t) (ToLower x) then H.count x else 0) ∧
    (∀ (ToLower : GoString → GoString) (C : List ConfigInfo) (t : GoString),
      List.Sorted (fun a b => stringLE a b = true) (searchContexts ToLower C t) ∧
      ∀ x, (searchContexts ToLower C t).count x =
        if IsSubstring (ToLower t) (ToLower x)
        then (C.flatMap (fun c => c.Contexts)).count x else 0) ∧
    searchNamespaces strings.ToLowerASCII [lit "Alpha", lit "beta", lit "ALPHA-2"]
      (lit "alpha") = [lit "ALPHA-2", lit "Alpha"] := by
  refine ⟨?_, ?_, by decide⟩
  · intro ToLower H t
    refine ⟨sortStrings_sorted _, fun x => ?_⟩
    simp only [searchNamespaces, collectMatches_eq, List.nil_append]
    exact count_sort_filter ToLower t H x
  · intro ToLower C t
    refine ⟨sortStrings_sorted _, fun x => ?_⟩
    simp only [searchContexts, collectContextMatches_eq, List.nil_append]
    exact count_sort_filter ToLower t _ x

/-! ## The config mutator -/

theorem mapGet_mapSet_self (m : List (Scalar × Value)) (k : Scalar) (v : Value) :
    mapGet (mapSet m k v) k = some v := by
  induction m with
  | nil => simp [mapSet, mapGet]
  | cons e rest ih =>
    obtain ⟨k0, v0⟩ := e
    by_cases h : k0 = k
    · simp [mapSet, mapGet, h]
    · simp [mapSet, mapGet, h, ih]

theorem mapGet_mapSet_ne (m : List (Scalar × Value)) (k k' : Scalar) (v : Value)
    (hne : k' ≠ k) : mapGet (mapSet m k v) k' = mapGet m k' := by
  induction m with
  | nil =>
    have : ¬ k = k' := fun h => hne h.symm
    simp [mapSet, mapGet, this]
  | cons e rest ih =>
    obtain ⟨k0, v0⟩ := e
    by_cases h : k0 = k
    · have h2 : ¬ k = k' := fun h' => hne h'.symm
      subst h
      simp [mapSet, mapGet, h2]
    · by_cases h4 : k0 = k'
      · subst h4
        simp [mapSet, mapGet, h]
      · simp [mapSet, mapGet, h, h4, ih]

theorem mapSet_eq_self (m : List (Scalar × Value)) (k : Scalar) (v : Value)
    (h : mapGet m k = some v) : mapSet m k v = m := by
  induction m with
  | nil => simp [mapGet] at h
  | cons e rest ih =>
    obtain ⟨k0, v0⟩ := e
    by_cases h0 : k0 = k
    · simp only [mapGet, h0, if_true, Option.some.injEq] at h
      simp [mapSet, h0, h]
    · simp only [mapGet, h0, if_false] at h
      simp [mapSet, h0, ih h]

theorem writeFile_ok {s : State} {p data : GoString}
    (h : (ioutil.WriteFile s p data).1 = none) :
    (ioutil.WriteFile s p data).2.files p = some data := by
  unfold ioutil.WriteFile at *
  split
  · simp
  · rename_i hw
    simp [hw] at h

/-- What a successful `setKubeConfig` has done. -/
theorem setKubeConfig_ok_inv {y : YamlCodec} {s : State} {filePath c : GoString}
    (hok : (setKubeConfig y s filePath c).1 = none) :
    ∃ data raw out,
      ioutil.ReadFile (setKubeConfigPublish s filePath).2 filePath = some data ∧
      y.Unmarshal data = some raw ∧
      y.Marshal (setCurrentContext raw c) = some out ∧
      (setKubeConfig y s filePath c).2.files filePath = some out := by
  unfold setKubeConfig at hok ⊢
  rcases hpub : setKubeConfigPublish s filePath with ⟨e, s1⟩
  rw [hpub] at hok
  cases e with
  | some err => simp at hok
  | none =>
    simp only at hok ⊢
    cases hr : ioutil.ReadFile s1 filePath with
    | none => rw [hr] at hok; simp at hok
    | some data =>
      rw [hr] at hok
      simp only at hok ⊢
      cases hu : y.Unmarshal data with
      | none => rw [hu] at hok; simp at hok
      | some raw =>
        rw [hu] at hok
        simp only at hok ⊢
        cases hm : y.Marshal (setCurrentContext raw c) with
        | none => rw [hm] at hok; simp at hok
        | some out =>
          rw [hm] at hok
          simp only at hok ⊢
          exact ⟨data, raw, out, rfl, hu, hm, writeFile_ok hok⟩

/-- The first steps of `setKubeConfig` (lines 1011-1025) write no file but the
output file: a file at another path holds what it held. -/
theorem publish_keeps_file (s : State) (filePath : GoString)
    (hdistinct : tempFilePath s ≠ filePath) :
    (setKubeConfigPublish s filePath).2.files filePath = s.files filePath := by
  have htemp : tempFilePath { s with previousContext := s.currentContext } = tempFilePath s :=
    rfl
  have hne : ¬ filePath = tempFilePath s := fun h => hdistinct h.symm
  unfold setKubeConfigPublish ioutil.WriteFile os.SetenvKUBECONFIG
  simp only [htemp]
  by_cases hw : s.writable (tempFilePath s) = true
  · by_cases h0 : 0 ∈ filePath
    · simp [hw, h0, hne]
    · simp [hw, h0, hne]
  · simp [hw]

/-- C4 (as amended): for every document `D` that is a top-level mapping, held by
the file at `path`, and every context name `c`, provided the output file of line
1013-1016 (`--output-config`, else `/tmp/kjx-config`) is not `path` itself: the
document that a successful `setKubeConfig(path, c)` serialises into the file is
a mapping whose `current-context` is `c` and in which every other key has the
binding, or the absence of binding, it has in `D` (no field is lost and none is
added); and every mapping to which the written text re-parses with the bindings
it was serialised from has the same properties. -/
theorem setKubeConfig_preserves_other_fields (y : YamlCodec) (s : State)
    (filePath c data : GoString) (m : List (Scalar × Value))
    (hok : (setKubeConfig y s filePath c).1 = none)
    (hfile : ioutil.ReadFile s filePath = some data)
    (hparse : y.Unmarshal data = some (.map m))
    (hdistinct : tempFilePath s ≠ filePath) :
    ∃ out m', (setKubeConfig y s filePath c).2.files filePath = some out ∧
      y.Marshal (.map m') = some out ∧
      mapGet m' keyCurrentContext = some (Value.str c) ∧
      (∀ k, k ≠ keyCurrentContext → mapGet m' k = mapGet m k) ∧
      (∀ m'', y.Unmarshal out = some (.map m'') → (∀ k, mapGet m'' k = mapGet m' k) →
        mapGet m'' keyCurrentContext = some (Value.str c) ∧
        ∀ k, k ≠ keyCurrentContext → mapGet m'' k = mapGet m k) := by
  obtain ⟨data', raw, out, hr, hu, hm, hout⟩ := setKubeConfig_ok_inv hok
  have hkeep := publish_keeps_file s filePath hdistinct
  unfold ioutil.ReadFile at hr hfile
  rw [hkeep, hfile] at hr
  cases hr
  rw [hparse] at hu
  cases hu
  refine ⟨out, mapSet m keyCurrentContext (Value.str c), hout, hm,
    mapGet_mapSet_self _ _ _, fun k hk => mapGet_mapSet_ne _ _ _ _ hk, ?_⟩
  intro m'' _ hget
  refine ⟨?_, fun k hk => ?_⟩
  · rw [hget, mapGet_mapSet_self]
  · rw [hget, mapGet_mapSet_ne _ _ _ _ hk]

/-- C4, witness: the file `/k/c1` holds `{current-context: a, kind: Config}`, the
output file is `/tmp/kjx-config` and the context `b` is selected; the text
written re-parses to `{current-context: b, kind: Config}`. -/
theorem setKubeConfig_preserves_other_fields_witness :
    (∃ out m', (setKubeConfig exampleCodec
        (stateWithFile (lit "current-context: a\nkind: Config\n"))
        (lit "/k/c1") (lit "b")).2.files (lit "/k/c1") = some out ∧
      exampleCodec.Marshal (.map m') = some out ∧
      mapGet m' keyCurrentContext = some (Value.str (lit "b")) ∧
      (∀ k, k ≠ keyCurrentContext → mapGet m' k =
        mapGet [(keyCurrentContext, Value.str (lit "a")),
          (.str (lit "kind"), Value.str (lit "Config"))] k) ∧
      (∀ m'', exampleCodec.Unmarshal out = some (.map m'') →
        (∀ k, mapGet m'' k = mapGet m' k) →
        mapGet m'' keyCurrentContext = some (Value.str (lit "b")) ∧
        ∀ k, k ≠ keyCurrentContext → mapGet m'' k =
          mapGet [(keyCurrentContext, Value.str (lit "a")),
            (.str (lit "kind"), Value.str (lit "Config"))] k)) ∧
    (setKubeConfig exampleCodec (stateWithFile (lit "current-context: a\nkind: Config\n"))
      (lit "/k/c1") (lit "b")).2.files (lit "/k/c1") =
        some (lit "current-context: b\nkind: Config\n") ∧
    exampleCodec.Unmarshal (lit "current-context: b\nkind: Config\n") = some docContextB :=
  ⟨setKubeConfig_preserves_other_fields exampleCodec
    (stateWithFile (lit "current-context: a\nkind: Config\n")) (lit "/k/c1") (lit "b")
    (lit "current-context: a\nkind: Config\n") _
    (by decide) (by decide) rfl (by decide),
   by decide, rfl⟩

/-- C4, counterexample to the claim as stated: the file `/k/c1` holds the mapping
`{current-context: a, kind: Config}` and the flag `--output-config` names
`/k/c1` itself.  Line 1018 writes the path text into the file before it is read;
`setKubeConfig` succeeds and leaves the file holding the string `/k/c1`, which is
no mapping: `kind` is lost and there is no `current-context`. -/
theorem setKubeConfig_output_alias_counterexample :
    ioutil.ReadFile aliasState (lit "/k/c1") =
      some (lit "current-context: a\nkind: Config\n") ∧
    aliasCodec.Unmarshal (lit "current-context: a\nkind: Config\n") = some docContextA ∧
    tempFilePath aliasState = lit "/k/c1" ∧
    (setKubeConfig aliasCodec aliasState (lit "/k/c1") (lit "b")).1 = none ∧
    (setKubeConfig aliasCodec aliasState (lit "/k/c1") (lit "b")).2.files (lit "/k/c1") =
      some (lit "/k/c1\n") ∧
    aliasCodec.Unmarshal (lit "/k/c1\n") = some (Value.str (lit "/k/c1")) ∧
    topLevelField (Value.str (lit "/k/c1")) (.str (lit "kind")) = none ∧
    topLevelField (Value.str (lit "/k/c1")) keyCurrentContext = none :=
  ⟨by decide, rfl, by decide, by decide, by decide, rfl, rfl, rfl⟩

/-- C5 (as amended): for every content of the file at `path` that parses and
every context name `c`, declared in the file or not, provided the output file
(`--output-config`, else `/tmp/kjx-config`) is not `path` itself: a successful
`setKubeConfig(path, c)` writes the serialisation of the edited document; when
the content parses to a top-level mapping that document has the top-level field
`current-context` equal to `c` (added if it was absent, overwritten if present),
and when it parses to anything else the document is written back unchanged. -/
theorem setKubeConfig_sets_current_context (y : YamlCodec) (s : State)
    (filePath c data : GoString) (raw : Value)
    (hok : (setKubeConfig y s filePath c).1 = none)
    (hfile : ioutil.ReadFile s filePath = some data)
    (hparse : y.Unmarshal data = some raw)
    (hdistinct : tempFilePath s ≠ filePath) :
    ∃ out, (setKubeConfig y s filePath c).2.files filePath = some out ∧
      y.Marshal (setCurrentContext raw c) = some out ∧
      (∀ m, raw = .map m →
        topLevelField (setCurrentContext raw c) keyCurrentContext = some (Value.str c)) ∧
      ((∀ m, raw ≠ .map m) → setCurrentContext raw c = raw) := by
  obtain ⟨data', raw', out, hr, hu, hm, hout⟩ := setKubeConfig_ok_inv hok
  have hkeep := publish_keeps_file s filePath hdistinct
  unfold ioutil.ReadFile at hr hfile
  rw [hkeep, hfile] at hr
  cases hr
  rw [hparse] at hu
  cases hu
  refine ⟨out, hout, hm, ?_, ?_⟩
  · intro m hraw
    subst hraw
    simp [setCurrentContext, topLevelField, mapGet_mapSet_self]
  · intro hnot
    cases raw with
    | scalar a => rfl
    | seq items => rfl
    | map m => exact absurd rfl (hnot m)

/-- C5, witness: the file holds `{kind: Config}`, which has no `current-context`;
after the call the written document has `current-context: b`. -/
theorem setKubeConfig_sets_current_context_witness :
    ∃ out, (setKubeConfig exampleCodec (stateWithFile (lit "kind: Config\n"))
        (lit "/k/c1") (lit "b")).2.files (lit "/k/c1") = some out ∧
      exampleCodec.Marshal (setCurrentContext docNoContext (lit "b")) = some out ∧
      (∀ m, docNoContext = .map m →
        topLevelField (setCurrentContext docNoContext (lit "b")) keyCurrentContext =
          some (Value.str (lit "b"))) ∧
      ((∀ m, docNoContext ≠ .map m) → setCurrentContext docNoContext (lit "b") = docNoContext) :=
  setKubeConfig_sets_current_context exampleCodec (stateWithFile (lit "kind: Config\n"))
    (lit "/k/c1") (lit "b") (lit "kind: Config\n") docNoContext (by decide) (by decide) rfl
    (by decide)

/-- C5, counterexample to the claim as stated.  First input: the file holds the
YAML document `- a`, which parses (to a list); `setKubeConfig` succeeds and
writes the same document back, which is no mapping and has no `current-context`
field.  Second input: the file holds the mapping `{kind: Config}` and
`--output-config` names the file itself; `setKubeConfig` succeeds and the file
then holds the string `/k/c1`, without a `current-context` field. -/
theorem setKubeConfig_list_document_counterexample :
    exampleCodec.Unmarshal (lit "- a\n") = some docList ∧
    (setKubeConfig exampleCodec (stateWithFile (lit "- a\n"))
      (lit "/k/c1") (lit "b")).1 = none ∧
    (setKubeConfig exampleCodec (stateWithFile (lit "- a\n"))
      (lit "/k/c1") (lit "b")).2.files (lit "/k/c1") = some (lit "- a\n") ∧
    topLevelField docList keyCurrentContext = none ∧
    ioutil.ReadFile aliasStateNoContext (lit "/k/c1") = some (lit "kind: Config\n") ∧
    aliasCodec.Unmarshal (lit "kind: Config\n") = some docNoContext ∧
    (setKubeConfig aliasCodec aliasStateNoContext (lit "/k/c1") (lit "b")).1 = none ∧
    (setKubeConfig aliasCodec aliasStateNoContext (lit "/k/c1") (lit "b")).2.files
      (lit "/k/c1") = some (lit "/k/c1\n") ∧
    aliasCodec.Unmarshal (lit "/k/c1\n") = some (Value.str (lit "/k/c1")) ∧
    topLevelField (Value.str (lit "/k/c1")) keyCurrentContext = none :=
  ⟨rfl, by decide, by decide, rfl, by decide, rfl, by decide, by decide, rfl, rfl⟩

theorem setNamespaceLoop_step_ne (A ns : GoString) (e : Value) (rest : List Value)
    (h : ¬ EntryNamed e A) :
    setNamespaceLoop A ns (e :: rest) = e :: setNamespaceLoop A ns rest := by
  cases e with
  | scalar a => simp [setNamespaceLoop]
  | seq items => simp [setNamespaceLoop]
  | map ctx =>
    cases hn : mapGet ctx keyName with
    | none => simp [setNamespaceLoop, hn]
    | some v =>
      cases v with
      | seq items => simp [setNamespaceLoop, hn]
      | map m => simp [setNamespaceLoop, hn]
      | scalar a =>
        cases a with
        | null => simp [setNamespaceLoop, hn]
        | bool b => simp [setNamespaceLoop, hn]
        | int i => simp [setNamespaceLoop, hn]
        | float b => simp [setNamespaceLoop, hn]
        | str name =>
          have hne : ¬ name = A := by
            intro heq
            subst heq
            exact h ⟨ctx, rfl, hn⟩
          simp [setNamespaceLoop, hn, hne]

theorem setNamespaceLoop_no_entry (A ns : GoString) (l : List Value)
    (h : ∀ e, e ∈ l → ¬ EntryNamed e A) : setNamespaceLoop A ns l = l := by
  induction l with
  | nil => rfl
  | cons e rest ih =>
    rw [setNamespaceLoop_step_ne A ns e rest (h e (List.mem_cons_self _ _)),
      ih (fun e' he' => h e' (List.mem_cons_of_mem _ he'))]

theorem setNamespaceLoop_first (A ns : GoString) (pre post : List Value)
    (ctx d : List (Scalar × Value))
    (hpre : ∀ e, e ∈ pre → ¬ EntryNamed e A)
    (hname : mapGet ctx keyName = some (Value.str A))
    (hdetail : mapGet ctx keyContext = some (.map d)) :
    setNamespaceLoop A ns (pre ++ .map ctx :: post) =
      pre ++ .map (mapSet ctx keyContext (.map (mapSet d keyNamespace (Value.str ns)))) ::
        post := by
  induction pre with
  | nil => simp [setNamespaceLoop, hname, hdetail]
  | cons e rest ih =>
    rw [List.cons_append, setNamespaceLoop_step_ne A ns e _ (hpre e (List.mem_cons_self _ _)),
      ih (fun e' he' => hpre e' (List.mem_cons_of_mem _ he'))]
    rfl

/-- A document without an entry named `A` is left as it is by the edit. -/
theorem setNamespace_no_entry (D : Value) (A ns : GoString) (h : ¬ HasContextNamed D A) :
    setNamespace D A ns = D := by
  cases D with
  | scalar a => rfl
  | seq items => rfl
  | map m =>
    cases hc : mapGet m keyContexts with
    | none => simp [setNamespace, hc]
    | some v =>
      cases v with
      | scalar a => simp [setNamespace, hc]
      | map m2 => simp [setNamespace, hc]
      | seq contexts =>
        have hno : ∀ e, e ∈ contexts → ¬ EntryNamed e A :=
          fun e he hn => h ⟨m, contexts, e, rfl, hc, he, hn⟩
        simp only [setNamespace, hc, setNamespaceLoop_no_entry A ns contexts hno]
        rw [mapSet_eq_self m keyContexts _ hc]

/-- What a successful `switchToNamespace` has done. -/
theorem switchToNamespace_ok_inv {y : YamlCodec} {s : State} {ns configPath : GoString}
    {kubeconfig : KubeConfig}
    (hok : (switchToNamespace y s ns kubeconfig configPath).1 = none) :
    ∃ data raw out,
      ioutil.ReadFile s configPath = some data ∧
      y.Unmarshal data = some raw ∧
      y.Marshal (setNamespace raw kubeconfig.CurrentContext ns) = some out ∧
      (switchToNamespace y s ns kubeconfig configPath).2.files configPath = some out := by
  unfold switchToNamespace at hok ⊢
  cases hr : ioutil.ReadFile s configPath with
  | none => rw [hr] at hok; simp at hok
  | some data =>
    rw [hr] at hok
    simp only at hok ⊢
    cases hu : y.Unmarshal data with
    | none => rw [hu] at hok; simp at hok
    | some raw =>
      rw [hu] at hok
      simp only at hok ⊢
      cases hm : y.Marshal (setNamespace raw kubeconfig.CurrentContext ns) with
      | none => rw [hm] at hok; simp at hok
      | some out =>
        rw [hm] at hok
        simp only at hok ⊢
        exact ⟨data, raw, out, rfl, hu, hm, writeFile_ok hok⟩

/-- C6 (as amended): let the document read from the file be a mapping whose
`contexts` list is `pre ++ [entry] ++ post`, where no entry of `pre` is named `A`,
`entry` is named `A` and its `context` is a mapping `d` (so `entry` is the first
entry named `A`).  After a successful `switchToNamespace(ns, cfg, path)` with
`cfg.CurrentContext = A` the written document has the `contexts` list
`pre ++ [entry'] ++ post`: the entries before and after are unchanged and none is
added or removed; `entry'` differs from `entry` only in `context`, whose mapping
differs from `d` only in `namespace`, which is `ns`; every other top-level key is
unchanged. -/
theorem switchToNamespace_sets_first_entry (y : YamlCodec) (s : State)
    (ns configPath data : GoString) (kubeconfig : KubeConfig)
    (m ctx d : List (Scalar × Value)) (pre post : List Value)
    (hok : (switchToNamespace y s ns kubeconfig configPath).1 = none)
    (hread : ioutil.ReadFile s configPath = some data)
    (hparse : y.Unmarshal data = some (.map m))
    (hcontexts : mapGet m keyContexts = some (.seq (pre ++ .map ctx :: post)))
    (hpre : ∀ e, e ∈ pre → ¬ EntryNamed e kubeconfig.CurrentContext)
    (hname : mapGet ctx keyName = some (Value.str kubeconfig.CurrentContext))
    (hdetail : mapGet ctx keyContext = some (.map d)) :
    ∃ out m' ctx' d',
      (switchToNamespace y s ns kubeconfig configPath).2.files configPath = some out ∧
      y.Marshal (.map m') = some out ∧
      mapGet m' keyContexts = some (.seq (pre ++ .map ctx' :: post)) ∧
      (∀ k, k ≠ keyContexts → mapGet m' k = mapGet m k) ∧
      mapGet ctx' keyContext = some (.map d') ∧
      (∀ k, k ≠ keyContext → mapGet ctx' k = mapGet ctx k) ∧
      mapGet d' keyNamespace = some (Value.str ns) ∧
      (∀ k, k ≠ keyNamespace → mapGet d' k = mapGet d k) := by
  obtain ⟨data', raw, out, hr, hu, hm, hfile⟩ := switchToNamespace_ok_inv hok
  rw [hread] at hr
  cases hr
  rw [hparse] at hu
  cases hu
  have hedit : setNamespace (.map m) kubeconfig.CurrentContext ns =
      .map (mapSet m keyContexts (.seq (pre ++
        .map (mapSet ctx keyContext (.map (mapSet d keyNamespace (Value.str ns)))) ::
          post))) := by
    simp only [setNamespace, hcontexts]
    rw [setNamespaceLoop_first _ ns pre post ctx d hpre hname hdetail]
  rw [hedit] at hm
  exact ⟨out, _, _, _, hfile, hm, mapGet_mapSet_self _ _ _,
    fun k hk => mapGet_mapSet_ne _ _ _ _ hk, mapGet_mapSet_self _ _ _,
    fun k hk => mapGet_mapSet_ne _ _ _ _ hk, mapGet_mapSet_self _ _ _,
    fun k hk => mapGet_mapSet_ne _ _ _ _ hk⟩

/-- C6, witness: the document with the single context `a` in namespace `x`;
`setNamespace(path, "y", "a")` gives namespace `y` and leaves the cluster
reference where it was. -/
theorem switchToNamespace_sets_first_entry_witness :
    (∃ out m' ctx' d',
      (switchToNamespace contextsCodec (stateWithFile textOneX) (lit "y")
        (kubeConfigWithCurrent (lit "a")) (lit "/k/c1")).2.files (lit "/k/c1") = some out ∧
      contextsCodec.Marshal (.map m') = some out ∧
      mapGet m' keyContexts = some (.seq ([] ++ .map ctx' :: [])) ∧
      (∀ k, k ≠ keyContexts → mapGet m' k =
        mapGet [(keyContexts, .seq [entryOf (lit "a") (lit "k1") (lit "x")]),
          (.str (lit "kind"), Value.str (lit "Config"))] k) ∧
      mapGet ctx' keyContext = some (.map d') ∧
      (∀ k, k ≠ keyContext → mapGet ctx' k =
        mapGet [(keyContext, .map (detailOf (lit "k1") (lit "x"))),
          (keyName, Value.str (lit "a"))] k) ∧
      mapGet d' keyNamespace = some (Value.str (lit "y")) ∧
      (∀ k, k ≠ keyNamespace → mapGet d' k = mapGet (detailOf (lit "k1") (lit "x")) k)) ∧
    (switchToNamespace contextsCodec (stateWithFile textOneX) (lit "y")
      (kubeConfigWithCurrent (lit "a")) (lit "/k/c1")).2.files (lit "/k/c1") = some textOneY :=
  ⟨switchToNamespace_sets_first_entry contextsCodec (stateWithFile textOneX) (lit "y")
    (lit "/k/c1") textOneX (kubeConfigWithCurrent (lit "a")) _ _ _ [] []
    (by decide) (by decide) rfl rfl (fun _ h => absurd h (List.not_mem_nil _)) rfl rfl,
   by decide⟩

/-- C6, counterexample to the claim as stated: the `contexts` list has two entries
named `a`, each with a mapping-valued `context` in namespace `x`.  After
`switchToNamespace("y", cfg, path)` with `cfg.CurrentContext = "a"` the second
entry, which is named `a` and has a mapping-valued `context`, is still in
namespace `x`: the loop stops at the first entry named `a`. -/
theorem switchToNamespace_duplicate_name_counterexample :
    contextsCodec.Unmarshal textTwoX =
      some (docOfContexts [entryOf (lit "a") (lit "k1") (lit "x"),
        entryOf (lit "a") (lit "k2") (lit "x")]) ∧
    EntryNamed (entryOf (lit "a") (lit "k2") (lit "x")) (lit "a") ∧
    (switchToNamespace contextsCodec (stateWithFile textTwoX) (lit "y")
      (kubeConfigWithCurrent (lit "a")) (lit "/k/c1")).1 = none ∧
    (switchToNamespace contextsCodec (stateWithFile textTwoX) (lit "y")
      (kubeConfigWithCurrent (lit "a")) (lit "/k/c1")).2.files (lit "/k/c1") = some textTwoY ∧
    contextsCodec.Unmarshal textTwoY =
      some (docOfContexts [entryOf (lit "a") (lit "k1") (lit "y"),
        entryOf (lit "a") (lit "k2") (lit "x")]) ∧
    mapGet (detailOf (lit "k2") (lit "x")) keyNamespace = some (Value.str (lit "x")) ∧
    lit "x" ≠ lit "y" :=
  ⟨rfl, ⟨_, rfl, rfl⟩, by decide, by decide, rfl, rfl, by decide⟩

/-- C7: for every document `D` read from the file and every namespace `ns`, if no
entry of `D`'s `contexts` list is named as the active context, then
`switchToNamespace` (the file being writable and `D` serialisable) returns no
error and the document it writes is `D` itself, unchanged in every field. -/
theorem switchToNamespace_missing_context_unchanged (y : YamlCodec) (s : State)
    (ns configPath data out : GoString) (kubeconfig : KubeConfig) (D : Value)
    (hread : ioutil.ReadFile s configPath = some data)
    (hparse : y.Unmarshal data = some D)
    (hmissing : ¬ HasContextNamed D kubeconfig.CurrentContext)
    (hmarshal : y.Marshal D = some out)
    (hwritable : s.writable configPath = true) :
    (switchToNamespace y s ns kubeconfig configPath).1 = none ∧
    (switchToNamespace y s ns kubeconfig configPath).2.files configPath = some out ∧
    setNamespace D kubeconfig.CurrentContext ns = D := by
  have hedit := setNamespace_no_entry D kubeconfig.CurrentContext ns hmissing
  have hrun : switchToNamespace y s ns kubeconfig configPath =
      ioutil.WriteFile s configPath out := by
    simp only [switchToNamespace, hread, hparse, hedit, hmarshal]
  rw [hrun]
  refine ⟨?_, ?_, hedit⟩
  · simp [ioutil.WriteFile, hwritable]
  · simp [ioutil.WriteFile, hwritable]

/-- The example document with the single context `a` has no entry named `missing`. -/
theorem docOne_has_no_missing :
    ¬ HasContextNamed (docOfContexts [entryOf (lit "a") (lit "k1") (lit "x")])
      (lit "missing") := by
  rintro ⟨m, contexts, e, hD, hc, he, ctx, hctx, hname⟩
  have hm : m = [(keyContexts, .seq [entryOf (lit "a") (lit "k1") (lit "x")]),
      (.str (lit "kind"), Value.str (lit "Config"))] := by
    injection hD with hD
    exact hD.symm
  subst hm
  have hc2 : mapGet [(keyContexts, Value.seq [entryOf (lit "a") (lit "k1") (lit "x")]),
      (.str (lit "kind"), Value.str (lit "Config"))] keyContexts =
      some (.seq [entryOf (lit "a") (lit "k1") (lit "x")]) := rfl
  rw [hc2] at hc
  injection hc with hc
  injection hc with hc
  subst hc
  rw [List.mem_singleton] at he
  subst he
  injection hctx with hctx
  subst hctx
  have hn2 : mapGet [(keyContext, Value.map (detailOf (lit "k1") (lit "x"))),
      (keyName, Value.str (lit "a"))] keyName = some (Value.str (lit "a")) := rfl
  rw [hn2] at hname
  injection hname with hname
  injection hname with hname
  injection hname with hname
  exact absurd hname (by decide)

/-- C7, witness: `setNamespace(path, "y", "missing")` on the document with the
single context `a` succeeds and writes the text it read. -/
theorem switchToNamespace_missing_context_unchanged_witness :
    (switchToNamespace contextsCodec (stateWithFile textOneX) (lit "y")
      (kubeConfigWithCurrent (lit "missing")) (lit "/k/c1")).1 = none ∧
    (switchToNamespace contextsCodec (stateWithFile textOneX) (lit "y")
      (kubeConfigWithCurrent (lit "missing")) (lit "/k/c1")).2.files (lit "/k/c1") =
        some textOneX ∧
    setNamespace (docOfContexts [entryOf (lit "a") (lit "k1") (lit "x")])
      (kubeConfigWithCurrent (lit "missing")).CurrentContext (lit "y") =
        docOfContexts [entryOf (lit "a") (lit "k1") (lit "x")] :=
  switchToNamespace_missing_context_unchanged contextsCodec (stateWithFile textOneX)
    (lit "y") (lit "/k/c1") textOneX textOneX (kubeConfigWithCurrent (lit "missing"))
    (docOfContexts [entryOf (lit "a") (lit "k1") (lit "x")])
    (by decide) rfl docOne_has_no_missing (by decide) rfl

/-! ## The loader -/

theorem contextNames_eq (acc : List GoString) (l : List Context) :
    contextNames acc l = acc ++ l.map (fun ctx => ctx.Name) := by
  induction l generalizing acc with
  | nil => simp [contextNames]
  | cons c rest ih => simp [contextNames, ih]

/-- The skip test of lines 791-794 is the negation of the name conditions. -/
theorem skip_test_iff (name : GoString) :
    (strings.HasPrefix name (lit ".") || strings.HasSuffix name (lit ".log") ||
      strings.HasSuffix name (lit ".txt") || strings.HasSuffix name (lit ".md")) = true ↔
    (lit "." <+: name ∨ lit ".log" <:+ name ∨ lit ".txt" <:+ name ∨ lit ".md" <:+ name) := by
  simp only [strings.HasPrefix, strings.HasSuffix, Bool.or_eq_true,
    List.isPrefixOf_iff_prefix, List.isSuffixOf_iff_suffix, or_assoc]

theorem loadAllLoop_step (Join : List GoString → GoString) (configDir : GoString)
    (configInfos : List ConfigInfo) (warnings : List GoString) (f : DirItem)
    (rest : List DirItem) :
    loadAllLoop Join configDir (configInfos, warnings) (f :: rest) =
      loadAllLoop Join configDir
        (configInfos ++ (expectedEntry Join configDir f).toList,
         warnings ++ (expectedWarning f).toList) rest := by
  by_cases hdir : f.IsDir = true
  · have hc : ¬ Candidate f := fun h => by simp [h.1] at hdir
    simp [loadAllLoop, hdir, expectedEntry, expectedWarning, hc]
  · have hdir' : f.IsDir = false := by simpa using hdir
    by_cases hskip : (strings.HasPrefix f.Name (lit ".") ||
        strings.HasSuffix f.Name (lit ".log") || strings.HasSuffix f.Name (lit ".txt") ||
        strings.HasSuffix f.Name (lit ".md")) = true
    · have hc : ¬ Candidate f := by
        rintro ⟨_, h1, h2, h3, h4⟩
        rcases (skip_test_iff f.Name).1 hskip with h | h | h | h
        · exact h1 h
        · exact h2 h
        · exact h3 h
        · exact h4 h
      simp only [loadAllLoop, hdir', hskip, expectedEntry, expectedWarning, hc]
      simp
    · have hc : Candidate f := by
        have hn := fun h => hskip ((skip_test_iff f.Name).2 h)
        exact ⟨hdir', fun h => hn (Or.inl h), fun h => hn (Or.inr (Or.inl h)),
          fun h => hn (Or.inr (Or.inr (Or.inl h))), fun h => hn (Or.inr (Or.inr (Or.inr h)))⟩
      cases hl : f.load with
      | none =>
        simp only [loadAllLoop, hdir', hskip, expectedEntry, expectedWarning, hc, hl]
        simp
      | some k =>
        by_cases hk : k.Contexts = []
        · simp only [loadAllLoop, hdir', hskip, expectedEntry, expectedWarning, hc, hl, hk]
          simp [contextNames]
        · have hlen : (contextNames [] k.Contexts).length > 0 := by
            rw [contextNames_eq]
            simpa [List.length_pos] using hk
          simp only [loadAllLoop, hdir', hskip, expectedEntry, expectedWarning, hc, hl, hk,
            hlen]
          simp [contextNames_eq]

theorem loadAllLoop_eq (Join : List GoString → GoString) (configDir : GoString)
    (files : List DirItem) (configInfos : List ConfigInfo) (warnings : List GoString) :
    loadAllLoop Join configDir (configInfos, warnings) files =
      (configInfos ++ files.filterMap (expectedEntry Join configDir),
       warnings ++ files.filterMap expectedWarning) := by
  induction files generalizing configInfos warnings with
  | nil => simp [loadAllLoop]
  | cons f rest ih =>
    rw [loadAllLoop_step, ih]
    cases h1 : expectedEntry Join configDir f <;> cases h2 : expectedWarning f <;>
      simp [List.filterMap_cons, h1, h2]

theorem expectedEntry_nonempty {Join : List GoString → GoString} {configDir : GoString}
    {f : DirItem} {e : ConfigInfo} (h : expectedEntry Join configDir f = some e) :
    e.Contexts ≠ [] := by
  unfold expectedEntry at h
  split at h
  · split at h
    · split at h
      · cases h
      · rename_i hk
        cases h
        simpa using hk
    · cases h
  · cases h

/-- C8: for an existing directory, given as the ordered list of its items (name,
is-directory, result of loading), `loadAllKubeConfigs` succeeds and returns, in
listing order, exactly one entry (path = directory joined with name, contexts =
the declared context names in document order) for each item that is not a
subdirectory, whose name neither starts with `.` nor ends in `.log`, `.txt` or
`.md`, that loads, and that declares at least one context; an item that fails to
load is skipped with a warning and the load does not fail; every entry returned
has a non-empty context list.  One valid file with two contexts and one
unreadable file give a one-element list and one warning. -/
theorem loadAllKubeConfigs_entries :
    (∀ (Join : List GoString → GoString) (configDir : GoString) (files : List DirItem),
      loadAllKubeConfigs Join configDir (.listing files) =
        .ok (files.filterMap (expectedEntry Join configDir),
             files.filterMap expectedWarning) ∧
      ∀ e, e ∈ files.filterMap (expectedEntry Join configDir) → e.Contexts ≠ []) ∧
    loadAllKubeConfigs joinSlash (lit "/k") (.listing exampleListing) =
      .ok ([{ FilePath := lit "/k/c1", Contexts := [lit "a", lit "b"] }], [lit "c2"]) := by
  refine ⟨fun Join configDir files => ⟨?_, ?_⟩, rfl⟩
  · simp only [loadAllKubeConfigs, loadAllLoop_eq, List.nil_append]
  · intro e he
    obtain ⟨f, _, hf⟩ := List.mem_filterMap.1 he
    exact expectedEntry_nonempty hf

/-! ## The orchestrator -/

theorem writeFile_previousContext (s : State) (p data : GoString) :
    (ioutil.WriteFile s p data).2.previousContext = s.previousContext := by
  unfold ioutil.WriteFile
  split <;> rfl

theorem setenv_previousContext (s : State) (value : GoString) :
    (os.SetenvKUBECONFIG s value).2.previousContext = s.previousContext := by
  unfold os.SetenvKUBECONFIG
  split <;> rfl

theorem publish_previousContext (s : State) (filePath : GoString) :
    (setKubeConfigPublish s filePath).2.previousContext = s.currentContext := by
  unfold setKubeConfigPublish
  simp only
  have hw := writeFile_previousContext { s with previousContext := s.currentContext }
    (tempFilePath { s with previousContext := s.currentContext }) filePath
  rcases hwf : ioutil.WriteFile { s with previousContext := s.currentContext }
    (tempFilePath { s with previousContext := s.currentContext }) filePath with ⟨e, s2⟩
  rw [hwf] at hw
  cases e with
  | some err => exact hw
  | none =>
    simp only
    rw [setenv_previousContext]
    exact hw

/-- Whatever its result, `setKubeConfig` leaves in `previousContext` the value
`currentContext` had when it was called (line 1011). -/
theorem setKubeConfig_previousContext (y : YamlCodec) (s : State) (filePath c : GoString) :
    (setKubeConfig y s filePath c).2.previousContext = s.currentContext := by
  have hpub := publish_previousContext s filePath
  unfold setKubeConfig
  rcases hp : setKubeConfigPublish s filePath with ⟨e, s1⟩
  rw [hp] at hpub
  cases e with
  | some err => exact hpub
  | none =>
    simp only
    cases ioutil.ReadFile s1 filePath with
    | none => exact hpub
    | some data =>
      simp only
      cases y.Unmarshal data with
      | none => exact hpub
      | some raw =>
        simp only
        cases y.Marshal (setCurrentContext raw c) with
        | none => exact hpub
        | some out =>
          simp only
          rw [writeFile_previousContext]
          exact hpub

/-- With `previousContext` empty, without mode flags and with a non-empty
registry, the argument `-` makes `runContextSwitcher` end at "No previous
context available": the state is the initial one with `currentContext` read from
the active file, and `switchToContext` is not called. -/
theorem runContextSwitcher_dash_no_previous (y : YamlCodec)
    (Join : List GoString → GoString) (configDir : GoString) (dir : DirState) (s : State)
    (configInfos : List ConfigInfo) (warnings : List GoString)
    (hstart : s.previousContext = [])
    (hload : loadAllKubeConfigs Join configDir dir = .ok (configInfos, warnings))
    (hregistry : configInfos ≠ []) :
    runContextSwitcher y Join noFlags configDir dir s [lit "-"] =
      Outcome.noPreviousContext { s with currentContext := getCurrentContext y Join s } ∧
    (runContextSwitcher y Join noFlags configDir dir s [lit "-"]).switched = false := by
  have hlen : ¬ configInfos.length = 0 := by
    intro h
    exact hregistry (List.length_eq_zero.1 h)
  have hrun : runContextSwitcher y Join noFlags configDir dir s [lit "-"] =
      Outcome.noPreviousContext { s with currentContext := getCurrentContext y Join s } := by
    simp [runContextSwitcher, noFlags, hload, hlen, hstart]
  rw [hrun]
  exact ⟨rfl, rfl⟩

/-- C9 (as amended): in direct-argument mode (no mode flags, non-empty registry)
the argument `-` is resolved to `previousContext` when that is not empty, and the
tool then switches to it: the run ends with the call
`switchToContext(previousContext, configInfos)`; when `previousContext` is empty
the run ends at "No previous context available" and nothing is switched.
`previousContext` is what `setKubeConfig` records: the value of `currentContext`
at its call. -/
theorem runContextSwitcher_dash_resolution (y : YamlCodec)
    (Join : List GoString → GoString) (configDir : GoString) (dir : DirState) (s : State)
    (configInfos : List ConfigInfo) (warnings : List GoString)
    (hload : loadAllKubeConfigs Join configDir dir = .ok (configInfos, warnings))
    (hregistry : configInfos ≠ []) :
    (s.previousContext ≠ [] →
      runContextSwitcher y Join noFlags configDir dir s [lit "-"] =
        Outcome.switchToContext s.previousContext
          (switchToContext y { s with currentContext := getCurrentContext y Join s }
            s.previousContext configInfos)) ∧
    (s.previousContext = [] →
      runContextSwitcher y Join noFlags configDir dir s [lit "-"] =
        Outcome.noPreviousContext { s with currentContext := getCurrentContext y Join s }) ∧
    (∀ filePath c, (setKubeConfig y s filePath c).2.previousContext = s.currentContext) := by
  have hlen : ¬ configInfos.length = 0 := by
    intro h
    exact hregistry (List.length_eq_zero.1 h)
  refine ⟨?_, ?_, fun filePath c => setKubeConfig_previousContext y s filePath c⟩
  · intro hprev
    simp [runContextSwitcher, noFlags, hload, hlen, hprev]
  · intro hprev
    simp [runContextSwitcher, noFlags, hload, hlen, hprev]

/-- C9, witness: the registry holds the file `c1` with the contexts `a` and `b`,
the active context is `b` and `previousContext` holds `a`; the argument `-` ends
in the call `switchToContext("a", configInfos)`, after which the file `/k/c1`
has `current-context: a` and `previousContext` holds `b`. -/
theorem runContextSwitcher_dash_resolution_witness :
    runContextSwitcher dashCodec joinSlash noFlags (lit "/k") (.listing exampleListing)
        dashBack [lit "-"] =
      Outcome.switchToContext (lit "a")
        (switchToContext dashCodec
          { dashBack with currentContext := getCurrentContext dashCodec joinSlash dashBack }
          (lit "a") [{ FilePath := lit "/k/c1", Contexts := [lit "a", lit "b"] }]) ∧
    (switchToContext dashCodec
      { dashBack with currentContext := getCurrentContext dashCodec joinSlash dashBack }
      (lit "a") [{ FilePath := lit "/k/c1", Contexts := [lit "a", lit "b"] }]).1 = none ∧
    (switchToContext dashCodec
      { dashBack with currentContext := getCurrentContext dashCodec joinSlash dashBack }
      (lit "a") [{ FilePath := lit "/k/c1", Contexts := [lit "a", lit "b"] }]).2.files
        (lit "/k/c1") = some (lit "current-context: a\n") ∧
    (switchToContext dashCodec
      { dashBack with currentContext := getCurrentContext dashCodec joinSlash dashBack }
      (lit "a") [{ FilePath := lit "/k/c1", Contexts := [lit "a", lit "b"] }]).2.previousContext
        = lit "b" :=
  ⟨(runContextSwitcher_dash_resolution dashCodec joinSlash (lit "/k")
      (.listing exampleListing) dashBack
      [{ FilePath := lit "/k/c1", Contexts := [lit "a", lit "b"] }] [lit "c2"]
      rfl (by decide)).1 (by decide),
   by decide, by decide, by decide⟩

/-- C9, counterexample to the claim as stated: a process started as `kjx -`, the
registry holding the file `c1` with the contexts `a` and `b` and the active
context being `b`.  `previousContext` is empty, the run ends at "No previous
context available" and `switchToContext` is not called. -/
theorem runContextSwitcher_dash_no_previous_counterexample :
    dashStart.previousContext = [] ∧
    runContextSwitcher dashCodec joinSlash noFlags (lit "/k") (.listing exampleListing)
        dashStart [lit "-"] =
      Outcome.noPreviousContext
        { dashStart with currentContext := getCurrentContext dashCodec joinSlash dashStart } ∧
    (runContextSwitcher dashCodec joinSlash noFlags (lit "/k") (.listing exampleListing)
        dashStart [lit "-"]).switched = false ∧
    getCurrentContext dashCodec joinSlash dashStart = lit "b" :=
  ⟨rfl,
   (runContextSwitcher_dash_no_previous dashCodec joinSlash (lit "/k")
      (.listing exampleListing) dashStart
      [{ FilePath := lit "/k/c1", Contexts := [lit "a", lit "b"] }] [lit "c2"]
      rfl rfl (by decide)).1,
   (runContextSwitcher_dash_no_previous dashCodec joinSlash (lit "/k")
      (.listing exampleListing) dashStart
      [{ FilePath := lit "/k/c1", Contexts := [lit "a", lit "b"] }] [lit "c2"]
      rfl rfl (by decide)).2,
   by decide⟩

/-! ## Shell integration -/

theorem functionCode_shape (execPath : GoString) :
    functionCode execPath =
      [10, 35, 32] ++ (installMarker ++
        (lit " (auto-generated)\n" ++ sprintfShellFunction execPath ++ lit "\n")) := by
  have h : lit "\n# KUBEJAX shell function (auto-generated)\n" =
      [10, 35, 32] ++ (installMarker ++ lit " (auto-generated)\n") := by decide
  simp only [functionCode, h, List.append_assoc]

/-- The generated block holds the marker, wherever the block is appended. -/
theorem marker_in_appended (P execPath : GoString) :
    IsSubstring installMarker (P ++ functionCode execPath) := by
  refine ⟨P.length + 3, ?_, ?_⟩
  · rw [functionCode_shape]
    simp only [List.length_append, List.length_cons, List.length_nil]
    omega
  · unfold OccursAt
    rw [functionCode_shape, ← List.drop_drop, List.drop_left]
    exact ⟨_, rfl⟩

theorem runInstall_content (Join : List GoString → GoString) (shell : GoString)
    (executable : Option GoString) (s : State) (p P : GoString)
    (hhome : s.homeDir ≠ [])
    (hprofile : profileFileFor Join shell s.homeDir = some p)
    (hP : s.files p = some P) (hw : s.writable p = true) :
    runInstall Join shell executable s =
      if IsSubstring installMarker P then s
      else { s with files := fun q =>
        if q = p then some (P ++ functionCode (execPathOf executable)) else s.files q } := by
  by_cases hm : IsSubstring installMarker P
  · have hc : strings.Contains P installMarker = true := (contains_iff _ _).2 hm
    simp [runInstall, hhome, hprofile, ioutil.ReadFile, hP, hc, hm]
  · have hc : ¬ strings.Contains P installMarker = true := fun h => hm ((contains_iff _ _).1 h)
    simp [runInstall, hhome, hprofile, ioutil.ReadFile, hP, hc, hm, appendToFile, hw,
      execPathOf]

/-- C10: for every existing, writable profile with content `P` (the profile chosen
from `$SHELL`) and every executable path, the content after `install` is `P`
itself when `P` contains the marker "KUBEJAX shell function" and `P` followed by
the generated function block otherwise; the generated block contains the marker;
and running `install` twice leaves the state that running it once leaves. -/
theorem runInstall_idempotent (Join : List GoString → GoString) (shell : GoString)
    (executable : Option GoString) (s : State) (p P : GoString)
    (hhome : s.homeDir ≠ [])
    (hprofile : profileFileFor Join shell s.homeDir = some p)
    (hP : s.files p = some P) (hw : s.writable p = true) :
    (runInstall Join shell executable s).files p =
      some (if IsSubstring installMarker P then P
            else P ++ functionCode (execPathOf executable)) ∧
    IsSubstring installMarker (functionCode (execPathOf executable)) ∧
    runInstall Join shell executable (runInstall Join shell executable s) =
      runInstall Join shell executable s := by
  have hblock : IsSubstring installMarker (functionCode (execPathOf executable)) := by
    simpa using marker_in_appended [] (execPathOf executable)
  have hrun := runInstall_content Join shell executable s p P hhome hprofile hP hw
  by_cases hm : IsSubstring installMarker P
  · rw [if_pos hm] at hrun
    rw [hrun, hrun, if_pos hm]
    exact ⟨hP, hblock, rfl⟩
  · rw [if_neg hm] at hrun
    rw [hrun, if_neg hm]
    refine ⟨by simp, hblock, ?_⟩
    have hsecond := runInstall_content Join shell executable
      { s with files := fun q =>
        if q = p then some (P ++ functionCode (execPathOf executable)) else s.files q }
      p (P ++ functionCode (execPathOf executable)) hhome hprofile (by simp) hw
    rw [hsecond, if_pos (marker_in_appended P (execPathOf executable))]

/-- C10, witness: a `.zshrc` holding one line, installed for `/usr/bin/kjx`. -/
theorem runInstall_idempotent_witness :
    (runInstall joinSlash (lit "/bin/zsh") (some (lit "/usr/bin/kjx")) installStart).files
        (lit "/home/u/.zshrc") =
      some (if IsSubstring installMarker (lit "export A=1\n") then lit "export A=1\n"
            else lit "export A=1\n" ++ functionCode (execPathOf (some (lit "/usr/bin/kjx")))) ∧
    IsSubstring installMarker (functionCode (execPathOf (some (lit "/usr/bin/kjx")))) ∧
    runInstall joinSlash (lit "/bin/zsh") (some (lit "/usr/bin/kjx"))
        (runInstall joinSlash (lit "/bin/zsh") (some (lit "/usr/bin/kjx")) installStart) =
      runInstall joinSlash (lit "/bin/zsh") (some (lit "/usr/bin/kjx")) installStart :=
  runInstall_idempotent joinSlash (lit "/bin/zsh") (some (lit "/usr/bin/kjx")) installStart
    (lit "/home/u/.zshrc") (lit "export A=1\n") (by decide) (by decide) (by decide) rfl

/-! ## The classifier on config files -/

theorem isProductionConfigFile_eq (Base ToLower : GoString → GoString) (p : GoString) :
    isProductionConfigFile Base ToLower p = isProductionEnvironment ToLower (Base p) := rfl

theorem baseUnix_join (dir name : GoString) (hne : name ≠ []) (hslash : 47 ∉ name) :
    filepath.BaseUnix (dir ++ lit "/" ++ name) = name := by
  have hl : lit "/" = [47] := by decide
  have hnot : ∀ c, c ∈ name.reverse → ¬ ((c == 47) = true) := by
    intro c hc h
    have : c = 47 := by simpa using h
    exact hslash (this ▸ List.mem_reverse.1 hc)
  have hrev : (dir ++ [47] ++ name).reverse = name.reverse ++ (47 :: dir.reverse) := by
    simp
  have hdrop : ((dir ++ [47] ++ name).reverse.dropWhile (fun c => c == 47)) =
      (dir ++ [47] ++ name).reverse := by
    rw [hrev]
    cases hn : name.reverse with
    | nil => exact absurd (List.reverse_eq_nil_iff.1 hn) hne
    | cons x xs =>
      have hx : ¬ ((x == 47) = true) := hnot x (by rw [hn]; exact List.mem_cons_self _ _)
      simp only [List.cons_append, List.dropWhile_cons]
      simp [hx]
  have htake : ∀ (l : List Nat) (rest : List Nat), (∀ c, c ∈ l → ¬ ((c == 47) = true)) →
      (l ++ (47 :: rest)).takeWhile (fun c => c != 47) = l := by
    intro l rest hl'
    induction l with
    | nil => simp
    | cons x xs ih =>
      have hx : ¬ ((x == 47) = true) := hl' x (List.mem_cons_self _ _)
      have hx' : ¬ x = 47 := by simpa using hx
      simp only [List.cons_append, List.takeWhile_cons]
      simp [hx', ih (fun c hc => hl' c (List.mem_cons_of_mem _ hc))]
  have hnonempty : dir ++ [47] ++ name ≠ [] := by simp
  unfold filepath.BaseUnix
  rw [hl, if_neg hnonempty]
  simp only [hdrop, List.reverse_reverse]
  rw [hrev, htake name.reverse dir.reverse hnot, List.reverse_reverse, if_neg hne]

theorem baseUnix_name (name : GoString) (hne : name ≠ []) (hslash : 47 ∉ name) :
    filepath.BaseUnix name = name := by
  have hnot : ∀ c, c ∈ name.reverse → ¬ ((c == 47) = true) := by
    intro c hc h
    have : c = 47 := by simpa using h
    exact hslash (this ▸ List.mem_reverse.1 hc)
  have hdrop : name.reverse.dropWhile (fun c => c == 47) = name.reverse := by
    cases hn : name.reverse with
    | nil => rfl
    | cons x xs =>
      have hx : ¬ ((x == 47) = true) := hnot x (by rw [hn]; exact List.mem_cons_self _ _)
      simp [List.dropWhile_cons, hx]
  have htake : name.reverse.takeWhile (fun c => c != 47) = name.reverse := by
    apply List.takeWhile_eq_self_iff.2
    intro c hc
    have := hnot c hc
    simpa using this
  unfold filepath.BaseUnix
  rw [if_neg hne]
  simp only [hdrop, List.reverse_reverse, htake, if_neg hne]

/-- C11: for every context name `c` and config file path `p` (whatever
`filepath.Base` and `strings.ToLower` compute), `isProductionConfigFile(p)` is
`isProductionEnvironment` applied to the base name of `p`, and
`isProductionEnvironmentCombined(c, p)` is `isProductionEnvironment(c)` or
`isProductionEnvironment(base name of p)`; two paths with the same base name give
the same result, and with the Unix base name the directory in front of a file
name has no influence: `/prod/dev-config` is not production for the context
`dev`, `/k/prod-config` is. -/
theorem isProductionEnvironmentCombined_base_name :
    (∀ (Base ToLower : GoString → GoString) (c p : GoString),
      isProductionConfigFile Base ToLower p = isProductionEnvironment ToLower (Base p) ∧
      ∃ a b, isProductionEnvironment ToLower c = some a ∧
        isProductionEnvironment ToLower (Base p) = some b ∧
        isProductionEnvironmentCombined Base ToLower c p = some (a || b)) ∧
    (∀ (Base ToLower : GoString → GoString) (c p q : GoString), Base p = Base q →
      isProductionEnvironmentCombined Base ToLower c p =
        isProductionEnvironmentCombined Base ToLower c q) ∧
    (∀ (ToLower : GoString → GoString) (c dir name : GoString), name ≠ [] → 47 ∉ name →
      isProductionEnvironmentCombined filepath.BaseUnix ToLower c (dir ++ lit "/" ++ name) =
        isProductionEnvironmentCombined filepath.BaseUnix ToLower c name) ∧
    isProductionEnvironmentCombined filepath.BaseUnix strings.ToLowerASCII
      (lit "dev") (lit "/prod/dev-config") = some false ∧
    isProductionEnvironmentCombined filepath.BaseUnix strings.ToLowerASCII
      (lit "dev") (lit "/k/prod-config") = some true := by
  refine ⟨?_, ?_, ?_, by decide, by decide⟩
  · intro Base ToLower c p
    refine ⟨rfl, ?_⟩
    obtain ⟨⟨a, ha⟩, _⟩ := isProductionEnvironment_spec ToLower c
    obtain ⟨⟨b, hb⟩, _⟩ := isProductionEnvironment_spec ToLower (Base p)
    refine ⟨a, b, ha, hb, ?_⟩
    cases a with
    | true => simp [isProductionEnvironmentCombined, ha]
    | false => simp [isProductionEnvironmentCombined, ha, isProductionConfigFile_eq, hb]
  · intro Base ToLower c p q h
    simp only [isProductionEnvironmentCombined, isProductionConfigFile_eq, h]
  · intro ToLower c dir name hne hslash
    have h1 := baseUnix_join dir name hne hslash
    have h2 := baseUnix_name name hne hslash
    simp only [isProductionEnvironmentCombined, isProductionConfigFile_eq, h1, h2]

/-! ## Resolution of a context name to a file -/

theorem declaresContext_iff (c : GoString) (l : List GoString) :
    declaresContext c l = true ↔ c ∈ l := by
  induction l with
  | nil => simp [declaresContext]
  | cons x rest ih =>
    by_cases h : x = c
    · simp [declaresContext, h]
    · have h' : ¬ c = x := fun e => h e.symm
      simp [declaresContext, h, h', ih]

theorem writeFile_error (s : State) (p data : GoString) :
    (ioutil.WriteFile s p data).1 = none ∨ (ioutil.WriteFile s p data).1 = some Err.io := by
  unfold ioutil.WriteFile
  split
  · left; rfl
  · right; rfl

theorem setenv_error (s : State) (value : GoString) :
    (os.SetenvKUBECONFIG s value).1 = none ∨ (os.SetenvKUBECONFIG s value).1 = some Err.io := by
  unfold os.SetenvKUBECONFIG
  split
  · right; rfl
  · left; rfl

theorem publish_error_not_msg (s : State) (filePath text : GoString) :
    (setKubeConfigPublish s filePath).1 ≠ some (Err.msg text) := by
  unfold setKubeConfigPublish
  simp only
  split
  · intro h
    cases h
  · rename_i s2 _
    rcases setenv_error s2 filePath with h | h <;> rw [h] <;> simp

/-- The errors of `setKubeConfig` come from the file system and the YAML library;
none is a message built by `fmt.Errorf` without a cause. -/
theorem setKubeConfig_error_not_msg (y : YamlCodec) (s : State) (filePath c text : GoString) :
    (setKubeConfig y s filePath c).1 ≠ some (Err.msg text) := by
  have hpub := publish_error_not_msg s filePath text
  unfold setKubeConfig
  rcases hp : setKubeConfigPublish s filePath with ⟨e, s1⟩
  rw [hp] at hpub
  cases e with
  | some err => simpa using hpub
  | none =>
    simp only
    cases ioutil.ReadFile s1 filePath with
    | none => simp
    | some data =>
      simp only
      cases y.Unmarshal data with
      | none => simp
      | some raw =>
        simp only
        cases y.Marshal (setCurrentContext raw c) with
        | none => simp
        | some out =>
          simp only
          rcases writeFile_error s1 filePath out with h | h <;> rw [h] <;> simp

theorem switchToContext_eq (y : YamlCodec) (s : State) (c : GoString)
    (registry : List ConfigInfo) :
    switchToContext y s c registry =
      match registry.find? (fun e => decide (c ∈ e.Contexts)) with
      | none => (some (Err.msg (lit "context '" ++ c ++ lit "' not found")), s)
      | some e => setKubeConfig y s e.FilePath c := by
  induction registry with
  | nil => rfl
  | cons e rest ih =>
    by_cases h : c ∈ e.Contexts
    · have hd := (declaresContext_iff c e.Contexts).2 h
      simp [switchToContext, hd, List.find?_cons, h]
    · have hd : ¬ declaresContext c e.Contexts = true :=
        fun hd => h ((declaresContext_iff c e.Contexts).1 hd)
      simp [switchToContext, hd, List.find?_cons, h, ih]

theorem switchToContext_not_found (y : YamlCodec) (s : State) (c : GoString)
    (registry : List ConfigInfo) (h : ∀ e, e ∈ registry → c ∉ e.Contexts) :
    switchToContext y s c registry =
      (some (Err.msg (lit "context '" ++ c ++ lit "' not found")), s) := by
  induction registry with
  | nil => rfl
  | cons e rest ih =>
    have hd : ¬ declaresContext c e.Contexts = true :=
      fun hd => h e (List.mem_cons_self _ _) ((declaresContext_iff c e.Contexts).1 hd)
    simp [switchToContext, hd, ih (fun e' he' => h e' (List.mem_cons_of_mem _ he'))]

theorem switchToContext_first (y : YamlCodec) (s : State) (c : GoString)
    (pre post : List ConfigInfo) (e : ConfigInfo)
    (hpre : ∀ e', e' ∈ pre → c ∉ e'.Contexts) (he : c ∈ e.Contexts) :
    switchToContext y s c (pre ++ e :: post) = setKubeConfig y s e.FilePath c := by
  induction pre with
  | nil =>
    have hd := (declaresContext_iff c e.Contexts).2 he
    simp [switchToContext, hd]
  | cons x rest ih =>
    have hd : ¬ declaresContext c x.Contexts = true :=
      fun hd => hpre x (List.mem_cons_self _ _) ((declaresContext_iff c x.Contexts).1 hd)
    simp [switchToContext, hd, ih (fun e' he' => hpre e' (List.mem_cons_of_mem _ he'))]

/-- Every registry that declares `c` splits at the first entry that declares it. -/
theorem exists_first_declaring (c : GoString) (registry : List ConfigInfo)
    (h : ∃ e, e ∈ registry ∧ c ∈ e.Contexts) :
    ∃ pre e post, registry = pre ++ e :: post ∧ (∀ e', e' ∈ pre → c ∉ e'.Contexts) ∧
      c ∈ e.Contexts := by
  induction registry with
  | nil =>
    obtain ⟨e, he, _⟩ := h
    cases he
  | cons x rest ih =>
    by_cases hx : c ∈ x.Contexts
    · exact ⟨[], x, rest, rfl, fun _ h' => absurd h' (List.not_mem_nil _), hx⟩
    · obtain ⟨e, he, hc⟩ := h
      have hrest : ∃ e, e ∈ rest ∧ c ∈ e.Contexts := by
        rcases List.mem_cons.1 he with h1 | h1
        · subst h1
          exact absurd hc hx
        · exact ⟨e, h1, hc⟩
      obtain ⟨pre, e0, post, heq, hpre, he0⟩ := ih hrest
      refine ⟨x :: pre, e0, post, by rw [heq]; rfl, ?_, he0⟩
      intro e' he'
      rcases List.mem_cons.1 he' with h1 | h1
      · subst h1
        exact hx
      · exact hpre e' h1

/-- C12: for every registry and every context name `c`, `switchToContext(c,
registry)` returns the error "context 'c' not found" if and only if `c` is in no
entry's context list, and then the state is untouched (the mutator has not run);
otherwise its result is the result of the single call `setKubeConfig(path, c)`
with `path` the file path of the first entry, in registry order, whose context
list contains `c`. -/
theorem switchToContext_not_found_iff :
    (∀ (y : YamlCodec) (s : State) (c : GoString) (registry : List ConfigInfo),
      ((switchToContext y s c registry).1 =
          some (Err.msg (lit "context '" ++ c ++ lit "' not found")) ↔
        ∀ e, e ∈ registry → c ∉ e.Contexts) ∧
      ((∀ e, e ∈ registry → c ∉ e.Contexts) →
        switchToContext y s c registry =
          (some (Err.msg (lit "context '" ++ c ++ lit "' not found")), s)) ∧
      (∀ pre e post, registry = pre ++ e :: post →
        (∀ e', e' ∈ pre → c ∉ e'.Contexts) → c ∈ e.Contexts →
        switchToContext y s c registry = setKubeConfig y s e.FilePath c)) ∧
    (∀ (y : YamlCodec) (s : State),
      switchToContext y s (lit "zzz") exampleRegistry =
        (some (Err.msg (lit "context 'zzz' not found")), s) ∧
      switchToContext y s (lit "b") exampleRegistry =
        setKubeConfig y s (lit "/k/c1") (lit "b")) := by
  refine ⟨fun y s c registry => ⟨⟨?_, ?_⟩, switchToContext_not_found y s c registry, ?_⟩,
    fun y s => ⟨?_, rfl⟩⟩
  · intro herr
    by_contra hex
    have hex' : ∃ e, e ∈ registry ∧ c ∈ e.Contexts := by
      by_contra hno
      apply hex
      intro e he hc
      exact hno ⟨e, he, hc⟩
    obtain ⟨pre, e, post, heq, hpre, he⟩ := exists_first_declaring c registry hex'
    rw [heq, switchToContext_first y s c pre post e hpre he] at herr
    exact setKubeConfig_error_not_msg y s e.FilePath c _ herr
  · intro h
    rw [switchToContext_not_found y s c registry h]
  · intro pre e post heq hpre he
    rw [heq]
    exact switchToContext_first y s c pre post e hpre he
  · have h := switchToContext_not_found y s (lit "zzz") exampleRegistry (by decide)
    have ht : lit "context '" ++ lit "zzz" ++ lit "' not found" =
        lit "context 'zzz' not found" := by decide
    rw [ht] at h
    exact h

/-! ## Scanning all occurrences, and termination -/

/-- C13: for every non-empty keyword `K` that contains no separator (as the
configured keyword "prod") and every text `T`, `isExactWordMatch(T, K)` returns
true whenever some occurrence of `K` in `T`, the first or a later one, is bounded
on both sides by a separator or a string edge. -/
theorem isExactWordMatch_any_bounded_occurrence (T K : GoString) (hk : K ≠ [])
    (hsf : SeparatorFree K) (i : Nat) (hi : BoundedOccurrence T K i) :
    isExactWordMatch T K = some true := by
  obtain ⟨b, hb, _, h2⟩ := isExactWordMatch_spec T K hk
  rw [hb, h2 hsf ⟨i, hi⟩]

/-- C13, witness: in "preprod-prod" the occurrence of "prod" at 3 is inside the
token "preprod" and the one at 8 is a whole word; in "production-prod" the
occurrence at 0 is inside "production" and the one at 11 is a whole word; both
texts match. -/
theorem isExactWordMatch_any_bounded_occurrence_witness :
    OccursAt (lit "preprod-prod") (lit "prod") 3 ∧
    ¬ BoundedOccurrence (lit "preprod-prod") (lit "prod") 3 ∧
    BoundedOccurrence (lit "preprod-prod") (lit "prod") 8 ∧
    isExactWordMatch (lit "preprod-prod") (lit "prod") = some true ∧
    OccursAt (lit "production-prod") (lit "prod") 0 ∧
    ¬ BoundedOccurrence (lit "production-prod") (lit "prod") 0 ∧
    BoundedOccurrence (lit "production-prod") (lit "prod") 11 ∧
    isExactWordMatch (lit "production-prod") (lit "prod") = some true :=
  ⟨by decide,
   fun h => absurd ((valid_iff_bounded (T := lit "preprod-prod") (K := lit "prod") (i := 3)
     (by decide) (by decide)).2 h) (by decide),
   ⟨by decide, Or.inr ⟨45, by decide, by decide⟩, Or.inl (by decide)⟩,
   isExactWordMatch_any_bounded_occurrence (lit "preprod-prod") (lit "prod") (by decide)
     (by decide) 8 ⟨by decide, Or.inr ⟨45, by decide, by decide⟩, Or.inl (by decide)⟩,
   by decide,
   fun h => absurd ((valid_iff_bounded (T := lit "production-prod") (K := lit "prod") (i := 0)
     (by decide) (by decide)).2 h) (by decide),
   ⟨by decide, Or.inr ⟨45, by decide, by decide⟩, Or.inl (by decide)⟩,
   isExactWordMatch_any_bounded_occurrence (lit "production-prod") (lit "prod") (by decide)
     (by decide) 11 ⟨by decide, Or.inr ⟨45, by decide, by decide⟩, Or.inl (by decide)⟩⟩

theorem nextIndex_some {T K : GoString} {p j : Nat} (h : nextIndex T K p = some j) :
    p ≤ j ∧ OccursAt T K j := by
  unfold nextIndex at h
  cases hi : strings.Index (T.drop p) K with
  | none => rw [hi] at h; cases h
  | some i0 =>
    rw [hi] at h
    simp only [Option.map_some', Option.some.injEq] at h
    subst h
    exact ⟨by omega, (occursAt_drop T K p i0).1 (index_some hi).1⟩

theorem index_empty (s : GoString) : strings.Index s [] = some 0 := by
  cases s <;> simp [strings.Index]

theorem nextIndex_empty (T : GoString) (i : Nat) : nextIndex T [] i = some i := by
  simp [nextIndex, index_empty]

/-- More fuel does not change a result the loop has reached. -/
theorem loop_mono (T K : GoString) :
    ∀ fuel idx b, isExactWordMatchLoop T K fuel idx = some b →
      isExactWordMatchLoop T K (fuel + 1) idx = some b := by
  intro fuel
  induction fuel with
  | zero =>
    intro idx b h
    cases idx with
    | none => simpa [isExactWordMatchLoop] using h
    | some i => simp [isExactWordMatchLoop] at h
  | succ fuel ih =>
    intro idx b h
    cases idx with
    | none => simpa [isExactWordMatchLoop] using h
    | some i =>
      rw [isExactWordMatchLoop] at h ⊢
      split
      · rename_i hv
        rw [if_pos hv] at h
        exact h
      · rename_i hv
        rw [if_neg hv] at h
        exact ih _ b h

theorem loop_mono_le (T K : GoString) (fuel fuel' : Nat) (hle : fuel ≤ fuel')
    (idx : Option Nat) (b : Bool) (h : isExactWordMatchLoop T K fuel idx = some b) :
    isExactWordMatchLoop T K fuel' idx = some b := by
  induction hle with
  | refl => exact h
  | step _ ih => exact loop_mono T K _ idx b ih

/-- With the empty keyword the loop variable stays at 0: the loop either returns
true in its first pass or never returns. -/
theorem loop_empty_keyword (T : GoString) :
    ∀ fuel, isExactWordMatchLoop T [] (fuel + 1) (some 0) =
      if (decide (0 ≥ T.length) || separatorAt T 0) = true then some true
      else isExactWordMatchLoop T [] fuel (some 0) := by
  intro fuel
  rw [isExactWordMatchLoop]
  simp only [List.length_nil, Nat.add_zero, beq_self_eq_true, Bool.true_or, Bool.true_and,
    List.drop_zero, index_empty, Option.map_some']

theorem loop_empty_keyword_diverges (T : GoString)
    (h : ¬ (decide (0 ≥ T.length) || separatorAt T 0) = true) :
    ∀ fuel, isExactWordMatchLoop T [] fuel (some 0) = none := by
  intro fuel
  induction fuel with
  | zero => rfl
  | succ fuel ih => rw [loop_empty_keyword, if_neg h, ih]

/-- A result reached with any amount of fuel is the result of `isExactWordMatch`. -/
theorem loop_result_eq (T K : GoString) (fuel : Nat) (b : Bool)
    (h : isExactWordMatchLoop T K fuel (strings.Index T K) = some b) :
    isExactWordMatch T K = some b := by
  unfold isExactWordMatch
  by_cases hk : K = []
  · subst hk
    rw [index_empty] at h ⊢
    by_cases hv : (decide (0 ≥ T.length) || separatorAt T 0) = true
    · cases fuel with
      | zero => simp [isExactWordMatchLoop] at h
      | succ fuel =>
        rw [loop_empty_keyword, if_pos hv] at h
        rw [loop_empty_keyword, if_pos hv]
        exact h
    · rw [loop_empty_keyword_diverges T hv] at h
      cases h
  · by_cases hle : fuel ≤ T.length + 1
    · exact loop_mono_le T K fuel _ hle _ b h
    · obtain ⟨b', hb', _⟩ := loop_spec T K hk (T.length + 1) 0 (by omega) (by omega)
      have hn : nextIndex T K 0 = strings.Index T K := by simp [nextIndex]
      rw [hn] at hb'
      have := loop_mono_le T K (T.length + 1) fuel (by omega) _ b' hb'
      rw [h] at this
      cases this
      exact hb'

/-- C14: for every text `T` and every non-empty keyword `K` the scanning loop of
`isExactWordMatch` terminates: with any number of passes above `len(T)` it
returns, and what it returns is the result of `isExactWordMatch`; after an
occurrence at `i` the next index examined, if any, is an occurrence `j` with
`i < j` and `j + len(K) ≤ len(T)`.  The keyword must be non-empty: with the
empty keyword the resume position is the index itself, and on the text "a" the
loop returns for no number of passes. -/
theorem isExactWordMatch_loop_terminates (T K : GoString) (hk : K ≠ []) :
    (∀ fuel, T.length < fuel →
      ∃ b, isExactWordMatchLoop T K fuel (strings.Index T K) = some b ∧
        isExactWordMatch T K = some b) ∧
    (∀ i j, OccursAt T K i → nextIndex T K (i + K.length) = some j →
      i < j ∧ OccursAt T K j ∧ j + K.length ≤ T.length) ∧
    (∀ (T' : GoString) (i : Nat), nextIndex T' [] (i + ([] : GoString).length) = some i) ∧
    (∀ fuel, isExactWordMatchLoop (lit "a") [] fuel (strings.Index (lit "a") []) = none) := by
  have hkpos : 0 < K.length := List.length_pos.mpr hk
  refine ⟨?_, ?_, ?_, ?_⟩
  · intro fuel hfuel
    obtain ⟨b, hb, _⟩ := loop_spec T K hk fuel 0 (by omega) (by omega)
    have hn : nextIndex T K 0 = strings.Index T K := by simp [nextIndex]
    rw [hn] at hb
    exact ⟨b, hb, loop_result_eq T K fuel b hb⟩
  · intro i j _ hj
    obtain ⟨hle, hocc⟩ := nextIndex_some hj
    exact ⟨by omega, hocc, occursAt_length hocc hk⟩
  · intro T' i
    simpa using nextIndex_empty T' i
  · intro fuel
    rw [index_empty]
    exact loop_empty_keyword_diverges (lit "a") (by decide) fuel

/-- C14, witness: the text "production-prod" and the keyword "prod". -/
theorem isExactWordMatch_loop_terminates_witness :
    (∀ fuel, (lit "production-prod").length < fuel →
      ∃ b, isExactWordMatchLoop (lit "production-prod") (lit "prod") fuel
          (strings.Index (lit "production-prod") (lit "prod")) = some b ∧
        isExactWordMatch (lit "production-prod") (lit "prod") = some b) ∧
    (∀ i j, OccursAt (lit "production-prod") (lit "prod") i →
      nextIndex (lit "production-prod") (lit "prod") (i + (lit "prod").length) = some j →
      i < j ∧ OccursAt (lit "production-prod") (lit "prod") j ∧
        j + (lit "prod").length ≤ (lit "production-prod").length) ∧
    nextIndex (lit "production-prod") (lit "prod") (0 + (lit "prod").length) = some 11 :=
  ⟨(isExactWordMatch_loop_terminates (lit "production-prod") (lit "prod") (by decide)).1,
   (isExactWordMatch_loop_terminates (lit "production-prod") (lit "prod") (by decide)).2.1,
   by decide⟩

/-! ## Interactive selection -/

theorem occursAt_pair_of_get (c : GoString) (a b : Nat) :
    ∀ i, c.get? i = some a → c.get? (i + 1) = some b → OccursAt c [a, b] i := by
  induction c with
  | nil => intro i h; simp at h
  | cons x xs ih =>
    intro i h0 h1
    cases i with
    | zero =>
      simp only [List.get?_cons_zero, Option.some.injEq] at h0
      subst h0
      cases xs with
      | nil => simp at h1
      | cons z zs =>
        simp only [Nat.zero_add, List.get?_cons_succ, List.get?_cons_zero,
          Option.some.injEq] at h1
        subst h1
        exact (occursAt_zero _ _).2 ⟨zs, rfl⟩
    | succ j =>
      rw [occursAt_succ_cons]
      exact ih j (by simpa using h0) (by simpa using h1)

/-- In a label built from a context name that does not contain " (", the first
" (" is the one the label puts after the name. -/
theorem index_displayLabel (c fileName ind : GoString)
    (hc : ¬ IsSubstring (lit " (") c) :
    strings.Index (displayLabel c fileName ind) (lit " (") = some c.length := by
  have hK : lit " (" = [32, 40] := by decide
  have hT : displayLabel c fileName ind = c ++ ([32, 40] ++ (fileName ++ lit ")" ++ ind)) := by
    simp [displayLabel, hK, List.append_assoc]
  rw [hK] at hc ⊢
  rw [hT]
  have hocc : OccursAt (c ++ ([32, 40] ++ (fileName ++ lit ")" ++ ind))) [32, 40] c.length := by
    unfold OccursAt
    rw [List.drop_left]
    exact ⟨_, rfl⟩
  cases hi : strings.Index (c ++ ([32, 40] ++ (fileName ++ lit ")" ++ ind))) [32, 40] with
  | none => exact absurd hocc (index_none hi _)
  | some i =>
    obtain ⟨hoi, hmin⟩ := index_some hi
    have hle : i ≤ c.length := by
      by_contra hgt
      exact hmin c.length (by omega) hocc
    by_cases heq : i = c.length
    · rw [heq]
    · exfalso
      have hlt : i < c.length := by omega
      have h0 := occursAt_get hoi 0 (by simp)
      have h1 := occursAt_get hoi 1 (by simp)
      simp only [Nat.add_zero, List.get?_cons_zero, List.get?_cons_succ] at h0 h1
      have h0' : c.get? i = some 32 := by
        rw [← h0]
        simp [List.getElem?_append_left hlt]
      by_cases hlast : i + 1 < c.length
      · have h1' : c.get? (i + 1) = some 40 := by
          rw [← h1]
          simp [List.getElem?_append_left hlast]
        exact hc ⟨i, by omega, occursAt_pair_of_get c 32 40 i h0' h1'⟩
      · have hi1 : i + 1 = c.length := by omega
        rw [hi1] at h1
        have h2 : (c ++ ([32, 40] ++ (fileName ++ lit ")" ++ ind))).get? c.length =
            some 32 := by
          simp [List.getElem?_append_right (le_refl c.length)]
        rw [h2] at h1
        cases h1

/-- For a context name without " (" the name recovered from the label is the name. -/
theorem splitFirst_displayLabel (c fileName ind : GoString)
    (hc : ¬ IsSubstring (lit " (") c) :
    strings.SplitFirst (displayLabel c fileName ind) (lit " (") = c := by
  unfold strings.SplitFirst
  rw [index_displayLabel c fileName ind hc]
  simp [displayLabel, List.append_assoc]

/-- C15 (the behaviour of the code at a context name that contains " ("): the
file `/k/c1` declares the single context `team (eu)`; its label is
`team (eu) (c1)`, the part before the first " (" is `team`, and choosing the
label makes `interactiveContextSelect` call `setKubeConfig("/k/c1", "team")`,
with a name the file does not declare; the file then holds
`current-context: team`. -/
theorem interactiveContextSelect_paren_name :
    selectItems filepath.BaseUnix strings.ToLowerASCII ([], []) parenRegistry =
      ([lit "team (eu) (c1)"], [(lit "team (eu) (c1)", lit "/k/c1")]) ∧
    strings.SplitFirst (lit "team (eu) (c1)") (lit " (") = lit "team" ∧
    lit "team" ≠ lit "team (eu)" ∧
    declaresContext (lit "team") [lit "team (eu)"] = false ∧
    (∀ (y : YamlCodec) (s : State),
      interactiveContextSelect y filepath.BaseUnix strings.ToLowerASCII pickFirst s
        parenRegistry = setKubeConfig y s (lit "/k/c1") (lit "team")) ∧
    (interactiveContextSelect parenCodec filepath.BaseUnix strings.ToLowerASCII pickFirst
      (stateWithFile (lit "current-context: team (eu)\n")) parenRegistry).1 = none ∧
    (interactiveContextSelect parenCodec filepath.BaseUnix strings.ToLowerASCII pickFirst
      (stateWithFile (lit "current-context: team (eu)\n")) parenRegistry).2.files
        (lit "/k/c1") = some (lit "current-context: team\n") := by
  refine ⟨by decide, by decide, by decide, by decide, fun y s => rfl, by decide, by decide⟩

theorem stringMapGet_set_self (m : List (GoString × GoString)) (k v : GoString) :
    stringMapGet (stringMapSet m k v) k = v := by
  induction m with
  | nil => simp [stringMapSet, stringMapGet]
  | cons e rest ih =>
    obtain ⟨k0, v0⟩ := e
    by_cases h : k0 = k
    · simp [stringMapSet, stringMapGet, h]
    · simp [stringMapSet, stringMapGet, h, ih]

theorem stringMapGet_set_ne (m : List (GoString × GoString)) (k k' v : GoString)
    (hne : k' ≠ k) : stringMapGet (stringMapSet m k v) k' = stringMapGet m k' := by
  induction m with
  | nil =>
    have : ¬ k = k' := fun h => hne h.symm
    simp [stringMapSet, stringMapGet, this]
  | cons e rest ih =>
    obtain ⟨k0, v0⟩ := e
    by_cases h : k0 = k
    · have h2 : ¬ k = k' := fun h' => hne h'.symm
      subst h
      simp [stringMapSet, stringMapGet, h2]
    · by_cases h4 : k0 = k'
      · subst h4
        simp [stringMapSet, stringMapGet, h]
      · simp [stringMapSet, stringMapGet, h, h4, ih]

theorem searchItemsInner_get (filePath c : GoString) (contexts : List GoString) :
    ∀ acc : List GoString × List (GoString × GoString),
      stringMapGet (searchItemsInner filePath acc contexts).2 c =
        if c ∈ contexts then filePath else stringMapGet acc.2 c := by
  induction contexts with
  | nil => intro acc; simp [searchItemsInner]
  | cons x rest ih =>
    intro acc
    obtain ⟨all, m⟩ := acc
    rw [searchItemsInner, ih]
    by_cases hrest : c ∈ rest
    · simp [hrest]
    · by_cases hx : c = x
      · subst hx
        simp [hrest, stringMapGet_set_self]
      · simp [hrest, hx, stringMapGet_set_ne _ _ _ _ hx]

theorem searchItemsInner_all (filePath : GoString) (contexts : List GoString) :
    ∀ acc : List GoString × List (GoString × GoString),
      (searchItemsInner filePath acc contexts).1 = acc.1 ++ contexts := by
  induction contexts with
  | nil => intro acc; simp [searchItemsInner]
  | cons x rest ih =>
    intro acc
    obtain ⟨all, m⟩ := acc
    rw [searchItemsInner, ih]
    simp

theorem lastDeclaring_cons (c : GoString) (x : ConfigInfo) (rest : List ConfigInfo) :
    lastDeclaring c (x :: rest) =
      match lastDeclaring c rest with
      | some e => some e
      | none => if c ∈ x.Contexts then some x else none := by
  unfold lastDeclaring
  rw [List.reverse_cons, List.find?_append]
  cases h : List.find? (fun e => decide (c ∈ e.Contexts)) rest.reverse with
  | some e => simp
  | none =>
    by_cases hx : c ∈ x.Contexts
    · simp [hx]
    · simp [hx]

theorem searchItems_get (c : GoString) (registry : List ConfigInfo) :
    ∀ acc : List GoString × List (GoString × GoString),
      stringMapGet (searchItems acc registry).2 c =
        match lastDeclaring c registry with
        | some e => e.FilePath
        | none => stringMapGet acc.2 c := by
  induction registry with
  | nil => intro acc; simp [searchItems, lastDeclaring]
  | cons x rest ih =>
    intro acc
    rw [searchItems, ih, lastDeclaring_cons]
    cases h : lastDeclaring c rest with
    | some e => rfl
    | none =>
      simp only [searchItemsInner_get]
      by_cases hx : c ∈ x.Contexts
      · simp [hx]
      · simp [hx]

theorem searchItems_all (registry : List ConfigInfo) :
    ∀ acc : List GoString × List (GoString × GoString),
      (searchItems acc registry).1 = acc.1 ++ registry.flatMap (fun e => e.Contexts) := by
  induction registry with
  | nil => intro acc; simp [searchItems]
  | cons x rest ih =>
    intro acc
    rw [searchItems, ih, searchItemsInner_all]
    simp [List.flatMap_cons]

theorem matchFilePathInner_eq (target filePath m : GoString) (contexts : List GoString) :
    matchFilePathInner target filePath m contexts =
      if target ∈ contexts then filePath else m := by
  induction contexts with
  | nil => simp [matchFilePathInner]
  | cons x rest ih =>
    by_cases hx : x = target
    · simp [matchFilePathInner, hx]
    · have hx' : ¬ target = x := fun h => hx h.symm
      simp [matchFilePathInner, hx, hx', ih]

theorem firstDeclaring_cons (c : GoString) (x : ConfigInfo) (rest : List ConfigInfo) :
    firstDeclaring c (x :: rest) =
      if c ∈ x.Contexts then some x else firstDeclaring c rest := by
  unfold firstDeclaring
  by_cases hx : c ∈ x.Contexts
  · simp [List.find?_cons, hx]
  · simp [List.find?_cons, hx]

theorem matchFilePathLoop_none (c : GoString) (registry : List ConfigInfo)
    (h : ∀ x, x ∈ registry → c ∉ x.Contexts) : matchFilePathLoop c [] registry = [] := by
  induction registry with
  | nil => rfl
  | cons x rest ih =>
    have hx : c ∉ x.Contexts := h x (List.mem_cons_self _ _)
    rw [matchFilePathLoop]
    simp only [matchFilePathInner_eq]
    simp [hx, ih (fun x' hx' => h x' (List.mem_cons_of_mem _ hx'))]

/-- When `c` occurs once in all the context lists of the registry, the lookup
loop ends with the file path of the entry that declares it. -/
theorem matchFilePathLoop_unique (c : GoString) (registry : List ConfigInfo) (e : ConfigInfo)
    (hone : (registry.flatMap (fun x => x.Contexts)).count c = 1)
    (hfirst : firstDeclaring c registry = some e) :
    matchFilePathLoop c [] registry = e.FilePath := by
  induction registry with
  | nil => simp [firstDeclaring] at hfirst
  | cons x rest ih =>
    rw [firstDeclaring_cons] at hfirst
    rw [List.flatMap_cons, List.count_append] at hone
    rw [matchFilePathLoop]
    simp only [matchFilePathInner_eq]
    by_cases hx : c ∈ x.Contexts
    · rw [if_pos hx] at hfirst
      have hxe : x = e := Option.some.inj hfirst
      rw [← hxe]
      have h1 : 1 ≤ List.count c x.Contexts := List.one_le_count_iff.2 hx
      have hrest : (rest.flatMap (fun x => x.Contexts)).count c = 0 := by omega
      have hnone : ∀ x', x' ∈ rest → c ∉ x'.Contexts := by
        intro x' hx' hc
        exact List.count_eq_zero.1 hrest (List.mem_flatMap.2 ⟨x', hx', hc⟩)
      by_cases hp : x.FilePath = []
      · simp [hx, hp, matchFilePathLoop_none c rest hnone]
      · simp [hx, hp]
    · rw [if_neg hx] at hfirst
      have h0 : List.count c x.Contexts = 0 := List.count_eq_zero.2 hx
      simp [hx, ih (by omega) hfirst]

/-- A search that finds exactly `[c]` has met `c` once in all the context lists. -/
theorem count_of_single_match (ToLower : GoString → GoString) (registry : List ConfigInfo)
    (term c : GoString) (h : searchContexts ToLower registry term = [c]) :
    (registry.flatMap (fun x => x.Contexts)).count c = 1 := by
  have hcount := count_sort_filter ToLower term (registry.flatMap (fun x => x.Contexts)) c
  have hs : searchContexts ToLower registry term =
      sort.Strings ((registry.flatMap (fun x => x.Contexts)).filter
        (fun n => strings.Contains (ToLower n) (ToLower term))) := by
    simp only [searchContexts, collectContextMatches_eq, List.nil_append]
  rw [← hs, h] at hcount
  by_cases hsub : IsSubstring (ToLower term) (ToLower c)
  · rw [if_pos hsub] at hcount
    rw [← hcount]
    simp
  · rw [if_neg hsub] at hcount
    simp at hcount

theorem firstDeclaring_mem {c : GoString} {registry : List ConfigInfo} {e : ConfigInfo}
    (h : firstDeclaring c registry = some e) : e ∈ registry ∧ c ∈ e.Contexts := by
  unfold firstDeclaring at h
  obtain ⟨hp, as, bs, heq, _⟩ := List.find?_eq_some.1 h
  exact ⟨by rw [heq]; simp, by simpa using hp⟩

theorem first_eq_last_of_unique (c : GoString) (registry : List ConfigInfo)
    (e e' : ConfigInfo) (hfirst : firstDeclaring c registry = some e)
    (hlast : lastDeclaring c registry = some e')
    (hone : (registry.filter (fun x => decide (c ∈ x.Contexts))).length = 1) : e = e' := by
  unfold firstDeclaring at hfirst
  unfold lastDeclaring at hlast
  obtain ⟨hpe, as, bs, heq, has⟩ := List.find?_eq_some.1 hfirst
  obtain ⟨hpe', as', bs', heq', has'⟩ := List.find?_eq_some.1 hlast
  have hfas : as.filter (fun x => decide (c ∈ x.Contexts)) = [] := by
    apply List.filter_eq_nil_iff.2
    intro a ha
    simpa using has a ha
  have hfas' : as'.filter (fun x => decide (c ∈ x.Contexts)) = [] := by
    apply List.filter_eq_nil_iff.2
    intro a ha
    simpa using has' a ha
  have h1 : registry.filter (fun x => decide (c ∈ x.Contexts)) =
      e :: bs.filter (fun x => decide (c ∈ x.Contexts)) := by
    rw [heq, List.filter_append, hfas]
    simp [List.filter_cons, hpe]
  have h2 : (registry.filter (fun x => decide (c ∈ x.Contexts))).reverse =
      e' :: bs'.filter (fun x => decide (c ∈ x.Contexts)) := by
    rw [← List.filter_reverse, heq', List.filter_append, hfas']
    simp [List.filter_cons, hpe']
  have hb : bs.filter (fun x => decide (c ∈ x.Contexts)) = [] := by
    rw [h1] at hone
    simpa using hone
  rw [h1, hb] at h2
  simp only [List.reverse_cons, List.reverse_nil, List.nil_append] at h2
  injection h2

theorem exists_first_last_declaring (c : GoString) (registry : List ConfigInfo)
    (hdecl : ∃ x, x ∈ registry ∧ c ∈ x.Contexts) :
    ∃ e e', firstDeclaring c registry = some e ∧ lastDeclaring c registry = some e' := by
  obtain ⟨x, hx, hc⟩ := hdecl
  have h1 : firstDeclaring c registry ≠ none := by
    unfold firstDeclaring
    intro hnone
    have := List.find?_eq_none.1 hnone x hx
    simp [hc] at this
  have h2 : lastDeclaring c registry ≠ none := by
    unfold lastDeclaring
    intro hnone
    have := List.find?_eq_none.1 hnone x (List.mem_reverse.2 hx)
    simp [hc] at this
  obtain ⟨e, he⟩ := Option.ne_none_iff_exists'.1 h1
  obtain ⟨e', he'⟩ := Option.ne_none_iff_exists'.1 h2
  exact ⟨e, e', he, he'⟩

/-- C16: for every registry and every context name `c` declared in it there are
a first entry `e` and a last entry `e'` declaring `c`, and:
`interactiveContextSearch`, when `c` is chosen, calls `setKubeConfig` with the
file path of `e'` (later entries overwrite the name-to-file map);
`switchToContext` calls it with the file path of `e`; the search-mode lookup,
which runs when the search finds the single match `c`, gives the file path of
`e`; the file found in the map is the one `switchToContext` uses if and only if
`e'` and `e` have the same file path, which is the case whenever exactly one
entry declares `c`. -/
theorem context_resolution_first_and_last (y : YamlCodec)
    (searcher : List GoString → Except Err GoString) (s : State) (c : GoString)
    (registry : List ConfigInfo)
    (hdecl : ∃ x, x ∈ registry ∧ c ∈ x.Contexts) :
    ∃ e e', firstDeclaring c registry = some e ∧ lastDeclaring c registry = some e' ∧
      (searcher (searchItems ([], []) registry).1 = .ok c →
        interactiveContextSearch y searcher s registry = setKubeConfig y s e'.FilePath c) ∧
      switchToContext y s c registry = setKubeConfig y s e.FilePath c ∧
      (∀ (ToLower : GoString → GoString) (term : GoString),
        searchContexts ToLower registry term = [c] →
        searchModeWithTerm y ToLower s registry term =
          SearchOutcome.singleMatch e.FilePath (setKubeConfig y s e.FilePath c)) ∧
      (stringMapGet (searchItems ([], []) registry).2 c = e.FilePath ↔
        e'.FilePath = e.FilePath) ∧
      ((registry.filter (fun x => decide (c ∈ x.Contexts))).length = 1 → e' = e) := by
  obtain ⟨e, e', hfirst, hlast⟩ := exists_first_last_declaring c registry hdecl
  have hget : stringMapGet (searchItems ([], []) registry).2 c = e'.FilePath := by
    rw [searchItems_get, hlast]
  obtain ⟨hmem, hc⟩ := firstDeclaring_mem hfirst
  have hall : c ∈ (searchItems ([], []) registry).1 := by
    rw [searchItems_all]
    simp only [List.nil_append, List.mem_flatMap]
    exact ⟨e, hmem, hc⟩
  have hswitch : switchToContext y s c registry = setKubeConfig y s e.FilePath c := by
    have h := switchToContext_eq y s c registry
    unfold firstDeclaring at hfirst
    rw [hfirst] at h
    exact h
  refine ⟨e, e', hfirst, hlast, ?_, hswitch, ?_, ?_, ?_⟩
  · intro hpick
    unfold interactiveContextSearch
    rcases hsi : searchItems ([], []) registry with ⟨all, m⟩
    rw [hsi] at hget hall hpick
    simp only at hget hall hpick ⊢
    have hlen : ¬ all.length = 0 := by
      intro h0
      rw [List.length_eq_zero.1 h0] at hall
      cases hall
    rw [if_neg hlen, hpick]
    simp only [hget]
  · intro ToLower term hfound
    have hone := count_of_single_match ToLower registry term c hfound
    simp only [searchModeWithTerm, hfound, List.length_singleton, List.headD_cons,
      matchFilePathLoop_unique c registry e hone hfirst, hswitch]
    simp
  · rw [hget]
  · intro hone
    exact (first_eq_last_of_unique c registry e e' hfirst hlast hone).symm

/-- C16, witness: in the registry of `/k/c1` (declaring `a`, `b`) and `/k/c2`
(declaring `b`), the context `b` is resolved to `/k/c2` by
`interactiveContextSearch` and to `/k/c1` by `switchToContext`; the search for
`a` finds the single match `a` and its lookup gives `/k/c1`. -/
theorem context_resolution_first_and_last_witness :
    (∀ (y : YamlCodec) (s : State),
      interactiveContextSearch y (fun _ => .ok (lit "b")) s exampleRegistry =
        setKubeConfig y s (lit "/k/c2") (lit "b") ∧
      switchToContext y s (lit "b") exampleRegistry =
        setKubeConfig y s (lit "/k/c1") (lit "b")) ∧
    (∀ (y : YamlCodec) (s : State),
      searchModeWithTerm y strings.ToLowerASCII s exampleRegistry (lit "a") =
        SearchOutcome.singleMatch (lit "/k/c1") (setKubeConfig y s (lit "/k/c1") (lit "a"))) ∧
    lit "/k/c2" ≠ lit "/k/c1" := by
  refine ⟨fun y s => ?_, fun y s => ?_, by decide⟩
  · obtain ⟨e, e', hf, hl, hint, hsw, _⟩ :=
      context_resolution_first_and_last y (fun _ => .ok (lit "b")) s (lit "b")
        exampleRegistry ⟨{ FilePath := lit "/k/c1", Contexts := [lit "a", lit "b"] },
          by decide, by decide⟩
    have hf' : firstDeclaring (lit "b") exampleRegistry =
        some { FilePath := lit "/k/c1", Contexts := [lit "a", lit "b"] } := by decide
    have hl' : lastDeclaring (lit "b") exampleRegistry =
        some { FilePath := lit "/k/c2", Contexts := [lit "b"] } := by decide
    rw [hf'] at hf
    rw [hl'] at hl
    cases hf
    cases hl
    exact ⟨hint rfl, hsw⟩
  · obtain ⟨e, e', hf, _, _, _, hsearch, _⟩ :=
      context_resolution_first_and_last y (fun _ => .ok (lit "a")) s (lit "a")
        exampleRegistry ⟨{ FilePath := lit "/k/c1", Contexts := [lit "a", lit "b"] },
          by decide, by decide⟩
    have hf' : firstDeclaring (lit "a") exampleRegistry =
        some { FilePath := lit "/k/c1", Contexts := [lit "a", lit "b"] } := by decide
    rw [hf'] at hf
    cases hf
    exact hsearch strings.ToLowerASCII (lit "a") (by decide)

end Kubejax
